import Mathlib

/-!
# Solver.cpp: a shallow embedding of the 2-D Lax-Friedrichs Euler solver

The C++ `double` is modelled by `ℚ` (exact arithmetic, computable, decidable
equality).  `std::vector` is modelled by `List`; an access outside the vector
is undefined behaviour in C++ and is modelled by `none`.

Where the rounding of doubles decides a property, which is so for the quotient
that `compare` returns, the method is given a second time with the rounding of
every operation written out: `Solver.compareRounded fl`, where `fl` takes the
exact result of an operation to the double the machine returns.  `roundDouble`
is that rounding for IEEE 754 binary64 (round to nearest, ties to even), on
finite values.

The header `Solver.hpp` is not part of the sources at hand.  What it supplies is
taken as follows:

* `GAMMA`  : a parameter `γ : ℚ` of every function that uses it;
* `ij2k`   : modelled from the specification (row-major flat index);
* `RUVP`   : a record of four doubles `r u v p` (field names and the order of
  the structured binding `auto [r, u, v, p]` are those used by `Solver.cpp`);
* the class `Solver`: a record of the data members that `Solver.cpp` uses;
* `std::sqrt` is library code; it is a parameter `sqrt : ℚ → ℚ`;
* `abs` in the CFL lambda is the absolute value of a double;
* the members `Flux_x`, `Flux_y` are resized by the constructor and never read
  or written afterwards; their element type is declared in the header and they
  are left out of the state;
* the line printed to `std::cout` in every iteration is not part of the state;
* the file written by `VisualVTK` and `VisualVTK_FULL` is the list of the
  insertions `<<` made into the stream, in order; the file name does not enter
  it, and a file that cannot be opened is not modelled.

Grid sizes are natural numbers.  The differences `N_y - 1`, `N_y - 2`,
`stride_ - 1` of the source are taken on grids with at least two rows and two
columns, where they do not wrap.  The `while` loop of `LaxFriedrichs` is run
with a bound on the number of its passes.
-/

namespace HPC

/-! ## Data model -/

/-- Modelled from the spec: the record `RUVP` of `Solver.hpp`, which is not among
the sources; the primitive state of one grid point, density `r`, velocity
components `u`, `v` and pressure `p`, with the field names `Solver.cpp` uses. -/
structure RUVP where
  r : ℚ
  u : ℚ
  v : ℚ
  p : ℚ
deriving DecidableEq

/-- The type `Eigen::Vector4d`: four doubles, indexed `[0]`..`[3]`. -/
structure Vector4d where
  c0 : ℚ
  c1 : ℚ
  c2 : ℚ
  c3 : ℚ
deriving DecidableEq

namespace Vector4d

/-- Componentwise sum, `a + b` of Eigen. -/
def add (a b : Vector4d) : Vector4d :=
  ⟨a.c0 + b.c0, a.c1 + b.c1, a.c2 + b.c2, a.c3 + b.c3⟩

/-- Componentwise difference, `a - b` of Eigen. -/
def sub (a b : Vector4d) : Vector4d :=
  ⟨a.c0 - b.c0, a.c1 - b.c1, a.c2 - b.c2, a.c3 - b.c3⟩

/-- Division of every component by a scalar, `a / s` of Eigen. -/
def sdiv (a : Vector4d) (s : ℚ) : Vector4d :=
  ⟨a.c0 / s, a.c1 / s, a.c2 / s, a.c3 / s⟩

/-- Product of every component with a scalar, `a * s` of Eigen. -/
def smul (a : Vector4d) (s : ℚ) : Vector4d :=
  ⟨a.c0 * s, a.c1 * s, a.c2 * s, a.c3 * s⟩

instance : Add Vector4d := ⟨add⟩
instance : Sub Vector4d := ⟨sub⟩
instance : HDiv Vector4d ℚ Vector4d := ⟨sdiv⟩
instance : HMul Vector4d ℚ Vector4d := ⟨smul⟩
instance : Inhabited Vector4d := ⟨⟨0, 0, 0, 0⟩⟩

/-- The statement `x[1] = -x[1]`. -/
def neg1 (a : Vector4d) : Vector4d := { a with c1 := -a.c1 }

/-- The statement `x[2] = -x[2]`. -/
def neg2 (a : Vector4d) : Vector4d := { a with c2 := -a.c2 }

end Vector4d

/-! ## Variable model and flux physics (`Solver.cpp`, lines 7-47) -/

/-- The function `Q2var`: conservative to primitive. -/
def Q2var (γ : ℚ) (Q : Vector4d) : RUVP :=
  let r := Q.c0
  let u := Q.c1 / Q.c0
  let v := Q.c2 / Q.c0
  let p := (Q.c3 - r * (u * u + v * v) / 2) * (γ - 1)
  { r := r, u := u, v := v, p := p }

/-- The function `Q2F`: flux in the x direction. -/
def Q2F (γ : ℚ) (Q : Vector4d) : Vector4d :=
  let u := Q.c1 / Q.c0
  let v := Q.c2 / Q.c0
  let p := (Q.c3 - Q.c0 * (u * u + v * v) / 2) * (γ - 1)
  { c0 := Q.c1
    c1 := Q.c0 * u * u + p
    c2 := Q.c0 * u * v
    c3 := u * (Q.c3 + p) }

/-- The function `Q2G`: flux in the y direction. -/
def Q2G (γ : ℚ) (Q : Vector4d) : Vector4d :=
  let u := Q.c1 / Q.c0
  let v := Q.c2 / Q.c0
  let p := (Q.c3 - Q.c0 * (u * u + v * v) / 2) * (γ - 1)
  { c0 := Q.c2
    c1 := Q.c0 * u * v
    c2 := Q.c0 * v * v + p
    c3 := v * (Q.c3 + p) }

/-- The function `var2Q`: primitive to conservative. -/
def var2Q (γ : ℚ) (var : RUVP) : Vector4d :=
  { c0 := var.r
    c1 := var.r * var.u
    c2 := var.r * var.v
    c3 := var.r * (var.u * var.u + var.v * var.v) / 2 + var.p / (γ - 1) }


/-! ## Vectors and loops -/

/-- Modelled from the spec: the helper `ij2k` of `Solver.hpp`, which is not among
the sources; the flat index of the point in column `i` and row `j` of a
row-major grid with `stride_` columns is `i + j * stride_`. -/
def ij2k (stride_ i j : ℕ) : ℕ := i + j * stride_

/-- The read `vec[k]` of a `std::vector`; `none` outside the vector. -/
def load {α : Type} (vec : List α) (k : ℕ) : Option α := vec[k]?

/-- The write `vec[k] = x` of a `std::vector`; `none` outside the vector. -/
def store {α : Type} (vec : List α) (k : ℕ) (x : α) : Option (List α) :=
  if k < vec.length then some (vec.set k x) else none

/-- The loop `for (int k = lo; k < hi; k++) body`, threading the state. -/
def forLoop {σ : Type} (lo hi : ℕ) (body : σ → ℕ → Option σ) (s : σ) : Option σ :=
  (List.range' lo (hi - lo)).foldlM body s

/-! ## Boundary conditions (`Solver.cpp`, lines 67-80) -/

/-- Body of the first loop of `Solver::boundaries` (lines 69-72), column `i`. -/
def boundariesRows (stride_ N_y : ℕ) (Q_ : List Vector4d) (i : ℕ) : Option (List Vector4d) := do
  let a ← load Q_ (ij2k stride_ i 1)
  let Q_ ← store Q_ (ij2k stride_ i 0) a
  let b ← load Q_ (ij2k stride_ i 0)
  let Q_ ← store Q_ (ij2k stride_ i 0) b.neg2
  let c ← load Q_ (ij2k stride_ i (N_y - 2))
  let Q_ ← store Q_ (ij2k stride_ i (N_y - 1)) c
  let d ← load Q_ (ij2k stride_ i (N_y - 1))
  store Q_ (ij2k stride_ i (N_y - 1)) d.neg2

/-- Body of the second loop of `Solver::boundaries` (lines 75-78), row `j`. -/
def boundariesCols (stride_ N_y : ℕ) (Q_ : List Vector4d) (j : ℕ) : Option (List Vector4d) := do
  let a ← load Q_ (ij2k stride_ 1 j)
  let Q_ ← store Q_ (ij2k stride_ 0 j) a
  let b ← load Q_ (ij2k stride_ 0 j)
  let Q_ ← store Q_ (ij2k stride_ 0 j) b.neg1
  let c ← load Q_ (ij2k stride_ (N_y - 2) j)
  let Q_ ← store Q_ (ij2k stride_ (stride_ - 1) j) c
  let d ← load Q_ (ij2k stride_ (N_y - 1) j)
  store Q_ (ij2k stride_ (N_y - 1) j) d.neg1

/-- The method `Solver::boundaries` (lines 67-80) on the array `Q_`. -/
def boundaries (stride_ N_y : ℕ) (Q_ : List Vector4d) : Option (List Vector4d) := do
  let Q_ ← forLoop 0 stride_ (boundariesRows stride_ N_y) Q_
  forLoop 0 N_y (boundariesCols stride_ N_y) Q_

/-! ## Solver state, constructor and time marching -/

/-- Modelled from the spec: the class `Solver` is declared in `Solver.hpp`, which
is not among the sources; these are the data members that `Solver.cpp` reads or
writes, under the names it uses: the mesh, the primitive, conservative and flux
arrays, the time step, the time, the grid spacings, the Courant number, the
number of columns and the number of rows. -/
structure Solver where
  xy_ : List (ℚ × ℚ)
  solution_ : List RUVP
  Q_ : List Vector4d
  F_ : List Vector4d
  G_ : List Vector4d
  dt_ : ℚ
  time_ : ℚ
  x_step_ : ℚ
  y_step_ : ℚ
  cour_ : ℚ
  stride_ : ℕ
  N_y : ℕ
deriving DecidableEq

/-- Body of the loop of the constructor (lines 58-60), point `i`. -/
def initPoint (γ : ℚ) (s : Solver) (i : ℕ) : Option Solver := do
  let var ← load s.solution_ i
  let Q_ ← store s.Q_ i (var2Q γ var)
  let q ← load Q_ i
  let F_ ← store s.F_ i (Q2F γ q)
  let q' ← load Q_ i
  let G_ ← store s.G_ i (Q2G γ q')
  pure { s with Q_ := Q_, F_ := F_, G_ := G_ }

/-- The constructor `Solver::Solver` (lines 49-65).  The division
`mesh.size() / N_x` by zero is undefined and gives `none`. -/
def Solver.construct (γ : ℚ) (mesh : List (ℚ × ℚ)) (init_solution : List RUVP) (dt : ℚ)
    (N_x : ℕ) (courant : ℚ) : Option Solver := do
  if N_x = 0 then none
  let s : Solver :=
    { xy_ := mesh, solution_ := init_solution, dt_ := dt, stride_ := N_x
      N_y := mesh.length / N_x, time_ := 0
      Q_ := List.replicate mesh.length default
      F_ := List.replicate mesh.length default
      G_ := List.replicate mesh.length default
      x_step_ := 0, y_step_ := 0, cour_ := 0 }
  let s ← forLoop 0 mesh.length (initPoint γ) s
  let x1 ← load s.xy_ 1
  let x0 ← load s.xy_ 0
  let s := { s with x_step_ := x1.1 - x0.1 }
  let y1 ← load s.xy_ (ij2k s.stride_ 0 1)
  let y0 ← load s.xy_ 0
  let s := { s with y_step_ := y1.2 - y0.2 }
  pure { s with cour_ := courant }

/-- The expression `cour_ / ((abs(u) + a) / x_step_ + (abs(v) + a) / y_step_)` of the
lambda `cfl` (lines 85-88) at the conservative state `q`. -/
def cflBound (γ : ℚ) (sqrt : ℚ → ℚ) (s : Solver) (q : Vector4d) : ℚ :=
  let var := Q2var γ q
  let a := sqrt (γ * var.p / var.r)
  s.cour_ / ((|var.u| + a) / s.x_step_ + (|var.v| + a) / s.y_step_)

/-- The lambda `cfl` of `LaxFriedrichs` (lines 84-90) at the point `idx`. -/
def cfl (γ : ℚ) (sqrt : ℚ → ℚ) (s : Solver) (idx : ℕ) : Option Solver := do
  let q ← load s.Q_ idx
  if s.dt_ > cflBound γ sqrt s q then
    pure { s with dt_ := cflBound γ sqrt s q }
  else
    pure s

/-- The right-hand side of the assignment in lines 98-101 at the point `(i, j)`. -/
def interiorValue (s : Solver) (i j : ℕ) : Option Vector4d := do
  let qE ← load s.Q_ (ij2k s.stride_ (i + 1) j)
  let qS ← load s.Q_ (ij2k s.stride_ i (j - 1))
  let qW ← load s.Q_ (ij2k s.stride_ (i - 1) j)
  let qN ← load s.Q_ (ij2k s.stride_ i (j + 1))
  let fE ← load s.F_ (ij2k s.stride_ (i + 1) j)
  let fW ← load s.F_ (ij2k s.stride_ (i - 1) j)
  let gN ← load s.G_ (ij2k s.stride_ i (j + 1))
  let gS ← load s.G_ (ij2k s.stride_ i (j - 1))
  pure ((qE + qS + qW + qN) / (4 : ℚ)
    - ((fE - fW) / s.x_step_ + (gN - gS) / s.y_step_) * s.dt_ / (2 : ℚ))

/-- The assignment `Q_tmp[ij2k(i, j)] = ...` of lines 98-101. -/
def interiorPoint (s : Solver) (Q_tmp : List Vector4d) (i j : ℕ) : Option (List Vector4d) := do
  let x ← interiorValue s i j
  store Q_tmp (ij2k s.stride_ i j) x

/-- The nested loops of lines 96-103: the interior update into `Q_tmp`. -/
def interiorUpdate (s : Solver) (Q_tmp : List Vector4d) : Option (List Vector4d) :=
  forLoop 1 (s.stride_ - 1)
    (fun Q_tmp i => forLoop 1 (s.N_y - 1) (fun Q_tmp j => interiorPoint s Q_tmp i j) Q_tmp) Q_tmp

/-- Body of the loop of lines 106-109, point `i`. -/
def fluxPoint (γ : ℚ) (s : Solver) (i : ℕ) : Option Solver := do
  let q ← load s.Q_ i
  let F_ ← store s.F_ i (Q2F γ q)
  let q' ← load s.Q_ i
  let G_ ← store s.G_ i (Q2G γ q')
  pure { s with F_ := F_, G_ := G_ }

/-- Body of the loops of lines 111-113 and 119-121, point `i`. -/
def varPoint (γ : ℚ) (s : Solver) (i : ℕ) : Option Solver := do
  let q ← load s.Q_ i
  let solution_ ← store s.solution_ i (Q2var γ q)
  pure { s with solution_ := solution_ }

/-- One pass of the body of the `while` loop of `LaxFriedrichs` (lines 93-117), on
the solver and the local array `Q_tmp`. -/
def LaxFriedrichsStep (γ : ℚ) (sqrt : ℚ → ℚ) (st : Solver × List Vector4d) :
    Option (Solver × List Vector4d) := do
  let s ← forLoop 0 st.1.xy_.length (cfl γ sqrt) st.1
  let Q_tmp ← interiorUpdate s st.2
  let s := { s with Q_ := Q_tmp }
  let Q_ ← boundaries s.stride_ s.N_y s.Q_
  let s := { s with Q_ := Q_ }
  let s ← forLoop 0 s.solution_.length (fluxPoint γ) s
  let s := { s with time_ := s.time_ + s.dt_ }
  let s ← forLoop 0 s.Q_.length (varPoint γ) s
  pure (s, Q_tmp)

/-- The loop `while (time_ < T_end)` of `LaxFriedrichs`, run for at most `fuel`
passes; `none` when the passes are used up before the loop is left. -/
def LaxFriedrichsLoop (γ : ℚ) (sqrt : ℚ → ℚ) (T_end : ℚ) :
    ℕ → Solver × List Vector4d → Option (Solver × List Vector4d)
  | 0, st => if st.1.time_ < T_end then none else some st
  | fuel + 1, st =>
    if st.1.time_ < T_end then
      (LaxFriedrichsStep γ sqrt st).bind (LaxFriedrichsLoop γ sqrt T_end fuel)
    else some st

/-- The method `Solver::LaxFriedrichs` (lines 82-122). -/
def LaxFriedrichs (γ : ℚ) (sqrt : ℚ → ℚ) (fuel : ℕ) (T_end : ℚ) (s : Solver) : Option Solver := do
  let st ← LaxFriedrichsLoop γ sqrt T_end fuel (s, s.Q_)
  forLoop 0 st.1.xy_.length (varPoint γ) st.1

/-! ## Comparison with a reference (`Solver.cpp`, lines 203-212) -/

/-- The body of the loop of `Solver::compare` (lines 206-209), point `i`. -/
def comparePoint (s : Solver) (expected : List RUVP) (res : ℚ) (i : ℕ) : Option ℚ := do
  let e ← load expected i
  let c ← load s.solution_ i
  let res := res + |e.p - c.p|
  let e ← load expected i
  let c ← load s.solution_ i
  let res := res + |e.u - c.u|
  let e ← load expected i
  let c ← load s.solution_ i
  let res := res + |e.v - c.v|
  let e ← load expected i
  let c ← load s.solution_ i
  let res := res + |e.r - c.r|
  pure res

/-- The method `Solver::compare` (lines 203-212). -/
def Solver.compare (s : Solver) (expected : List RUVP) : Option ℚ := do
  let res ← forLoop 0 expected.length (comparePoint s expected) 0
  pure (res / (expected.length : ℚ))

/-- The sum of the four absolute differences between a reference state and a
current state. -/
def pointError (e c : RUVP) : ℚ := |e.p - c.p| + |e.u - c.u| + |e.v - c.v| + |e.r - c.r|

/-! ## Rounding to a `double` -/

/-- The power `2 ^ e` of two, for an integer exponent `e`. -/
def pow2 (e : ℤ) : ℚ :=
  if 0 ≤ e then ((2 ^ e.toNat : ℕ) : ℚ) else 1 / ((2 ^ (-e).toNat : ℕ) : ℚ)

/-- The number of times `n` can be halved before it is below `2`, with at most
`fuel` halvings: the floor of the binary logarithm of `n ≥ 1` when `fuel ≥ n`. -/
def log2Fuel : ℕ → ℕ → ℕ
  | 0, _ => 0
  | fuel + 1, n => if n < 2 then 0 else log2Fuel fuel (n / 2) + 1

/-- The exponent `e` with `2 ^ e ≤ a < 2 ^ (e + 1)`, for a positive rational `a`:
the difference of the binary logarithms of numerator and denominator, or one
less. -/
def binade (a : ℚ) : ℤ :=
  let e0 : ℤ := (log2Fuel a.num.natAbs a.num.natAbs : ℤ) - (log2Fuel a.den a.den : ℤ)
  if pow2 e0 ≤ a then e0 else e0 - 1

/-- The integer nearest to `m`; of the two integers nearest to a half-integer,
the even one. -/
def roundHalfEven (m : ℚ) : ℤ :=
  let f : ℤ := ⌊m⌋
  if m - f < 1 / 2 then f
  else if 1 / 2 < m - f then f + 1
  else if f % 2 = 0 then f else f + 1

/-- The `double` that an operation on doubles returns for the exact result `x`
(IEEE 754 binary64, round to nearest, ties to even): `x` is rounded to a multiple
of the spacing `2 ^ (e - 52)` of the doubles of its magnitude, where `e` is the
binade of `|x|` and not less than `-1022`, so that below `2 ^ (-1022)` the
spacing is `2 ^ (-1074)`.  A result beyond the largest double, which the machine
turns into an infinity, is rounded on the grid of its magnitude all the same. -/
def roundDouble (x : ℚ) : ℚ :=
  let e := max (binade |x|) (-1022)
  let q := pow2 (e - 52)
  (roundHalfEven (x / q) : ℚ) * q

/-! ## Comparison with a reference, in double arithmetic (`Solver.cpp`, lines 203-212) -/

/-- The body of the loop of `Solver::compare` (lines 206-209), point `i`, with the
rounding `fl` of the result of every subtraction and of every `+=` on doubles
written out; `std::abs` of a double is exact. -/
def comparePointRounded (fl : ℚ → ℚ) (s : Solver) (expected : List RUVP) (res : ℚ) (i : ℕ) :
    Option ℚ := do
  let e ← load expected i
  let c ← load s.solution_ i
  let res := fl (res + |fl (e.p - c.p)|)
  let e ← load expected i
  let c ← load s.solution_ i
  let res := fl (res + |fl (e.u - c.u)|)
  let e ← load expected i
  let c ← load s.solution_ i
  let res := fl (res + |fl (e.v - c.v)|)
  let e ← load expected i
  let c ← load s.solution_ i
  let res := fl (res + |fl (e.r - c.r)|)
  pure res

/-- The method `Solver::compare` (lines 203-212) with the rounding `fl` of every
operation on doubles written out: the subtractions and additions of the loop,
the conversion `static_cast<double>(expected.size())` and the final division.
With `fl` the identity this is `Solver.compare`. -/
def Solver.compareRounded (fl : ℚ → ℚ) (s : Solver) (expected : List RUVP) : Option ℚ := do
  let res ← forLoop 0 expected.length (comparePointRounded fl s expected) 0
  pure (fl (res / fl (expected.length : ℚ)))

/-! ## Indices accessed by `boundaries` -/


/-- The flat indices that pass `i` of the first loop of `boundaries` (lines
69-72) reads and writes, in the order of the accesses. -/
def boundariesRowsIndices (stride_ N_y i : ℕ) : List ℕ :=
  [ij2k stride_ i 1, ij2k stride_ i 0, ij2k stride_ i 0, ij2k stride_ i 0,
   ij2k stride_ i (N_y - 2), ij2k stride_ i (N_y - 1), ij2k stride_ i (N_y - 1),
   ij2k stride_ i (N_y - 1)]

/-- The flat indices that pass `j` of the second loop of `boundaries` (lines
75-78) reads and writes, in the order of the accesses. -/
def boundariesColsIndices (stride_ N_y j : ℕ) : List ℕ :=
  [ij2k stride_ 1 j, ij2k stride_ 0 j, ij2k stride_ 0 j, ij2k stride_ 0 j,
   ij2k stride_ (N_y - 2) j, ij2k stride_ (stride_ - 1) j, ij2k stride_ (N_y - 1) j,
   ij2k stride_ (N_y - 1) j]

/-- The flat indices that a call of `boundaries` reads and writes. -/
def boundariesIndices (stride_ N_y : ℕ) : List ℕ :=
  (List.range stride_).flatMap (boundariesRowsIndices stride_ N_y) ++
    (List.range N_y).flatMap (boundariesColsIndices stride_ N_y)

/-! ## VTK export (`Solver.cpp`, lines 125-201) -/


/-- One insertion `out << x` into the output file stream: a string literal, an
integer, a double, `std::endl` or the manipulator `std::fixed`. -/
inductive Tok where
  | str (text : String)
  | nat (n : ℕ)
  | dbl (x : ℚ)
  | endl
  | fixed
deriving DecidableEq

/-- A loop `for (int k = lo; k < hi; k++)` whose pass `k` inserts the items
`item k` into the stream. -/
def emitLoop (lo hi : ℕ) (item : ℕ → Option (List Tok)) (out : List Tok) : Option (List Tok) :=
  forLoop lo hi (fun out k => do
    let ts ← item k
    pure (out ++ ts)) out

/-- The nested loops `for (int j = jlo; j < jhi; j++) for (int i = ilo; i < ihi; i++)`
whose pass `(i, j)` inserts the items `item i j` into the stream. -/
def emitGrid (jlo jhi ilo ihi : ℕ) (item : ℕ → ℕ → Option (List Tok)) (out : List Tok) :
    Option (List Tok) :=
  forLoop jlo jhi (fun out j => emitLoop ilo ihi (fun i => item i j) out) out

/-- The items `solution_[ij2k(i, j)].r << std::endl`. -/
def densityItem (s : Solver) (i j : ℕ) : Option (List Tok) := do
  let var ← load s.solution_ (ij2k s.stride_ i j)
  pure [Tok.dbl var.r, Tok.endl]

/-- The items `solution_[ij2k(i, j)].p << std::endl`. -/
def pressureItem (s : Solver) (i j : ℕ) : Option (List Tok) := do
  let var ← load s.solution_ (ij2k s.stride_ i j)
  pure [Tok.dbl var.p, Tok.endl]

/-- The items `std::fixed << solution_[ij2k(i, j)].u << " "
<< solution_[ij2k(i, j)].v << " 0" << std::endl`. -/
def velocityItem (s : Solver) (i j : ℕ) : Option (List Tok) := do
  let a ← load s.solution_ (ij2k s.stride_ i j)
  let b ← load s.solution_ (ij2k s.stride_ i j)
  pure [Tok.fixed, Tok.dbl a.u, Tok.str " ", Tok.dbl b.v, Tok.str " 0", Tok.endl]

/-- The method `Solver::VisualVTK` (lines 125-162): the sequence of insertions
into the file `file_name`. -/
def VisualVTK (s : Solver) : Option (List Tok) := do
  let out : List Tok := []
  let out := out ++
    [Tok.str "# vtk DataFile Version 3.0\nvtk output\nASCII\nDATASET RECTILINEAR_GRID\n"]
  let out := out ++ [Tok.str "DIMENSIONS ", Tok.nat (s.stride_ - 1), Tok.str " ",
    Tok.nat (s.N_y - 1), Tok.str " 1", Tok.endl]
  let out := out ++ [Tok.str "X_COORDINATES ", Tok.nat (s.stride_ - 1), Tok.str " float\n"]
  let out ← emitLoop 1 s.stride_ (fun i => do
    let xy ← load s.xy_ i
    pure [Tok.dbl (xy.1 - s.x_step_ / 2), Tok.str " "]) out
  let out := out ++ [Tok.endl]
  let out := out ++ [Tok.str "Y_COORDINATES ", Tok.nat (s.N_y - 1), Tok.str " float\n"]
  let out ← emitLoop 1 s.N_y (fun i => do
    let xy ← load s.xy_ (ij2k s.stride_ 0 i)
    pure [Tok.dbl (xy.2 - s.y_step_ / 2), Tok.str " "]) out
  let out := out ++ [Tok.endl]
  let out := out ++ [Tok.str "Z_COORDINATES 1 float\n0\n"]
  let out := out ++ [Tok.str "CELL_DATA ", Tok.nat ((s.stride_ - 2) * (s.N_y - 2)), Tok.endl]
  let out := out ++ [Tok.str "SCALARS density double 1", Tok.endl]
  let out := out ++ [Tok.str "LOOKUP_TABLE default", Tok.endl]
  let out ← emitGrid 1 (s.N_y - 1) 1 (s.stride_ - 1) (densityItem s) out
  let out := out ++ [Tok.str "SCALARS pressure double 1", Tok.endl]
  let out := out ++ [Tok.str "LOOKUP_TABLE default", Tok.endl]
  let out ← emitGrid 1 (s.N_y - 1) 1 (s.stride_ - 1) (pressureItem s) out
  let out := out ++ [Tok.str "VECTORS velocity double", Tok.endl]
  let out ← emitGrid 1 (s.N_y - 1) 1 (s.stride_ - 1) (velocityItem s) out
  pure out

/-- The method `Solver::VisualVTK_FULL` (lines 164-201): the sequence of
insertions into the file `file_name`. -/
def VisualVTK_FULL (s : Solver) : Option (List Tok) := do
  let out : List Tok := []
  let out := out ++
    [Tok.str "# vtk DataFile Version 3.0\nvtk output\nASCII\nDATASET RECTILINEAR_GRID\n"]
  let out := out ++ [Tok.str "DIMENSIONS ", Tok.nat (s.stride_ + 1), Tok.str " ",
    Tok.nat (s.N_y + 1), Tok.str " 1", Tok.endl]
  let out := out ++ [Tok.str "X_COORDINATES ", Tok.nat (s.stride_ + 1), Tok.str " float\n"]
  let out ← emitLoop 0 s.stride_ (fun i => do
    let xy ← load s.xy_ i
    pure [Tok.dbl (xy.1 - s.x_step_ / 2), Tok.str " "]) out
  let xy ← load s.xy_ (s.stride_ - 1)
  let out := out ++ [Tok.dbl (xy.1 + s.x_step_ / 2), Tok.endl]
  let out := out ++ [Tok.str "Y_COORDINATES ", Tok.nat (s.N_y + 1), Tok.str " float\n"]
  let out ← emitLoop 0 s.N_y (fun i => do
    let xy ← load s.xy_ (ij2k s.stride_ 0 i)
    pure [Tok.dbl (xy.2 - s.y_step_ / 2), Tok.str " "]) out
  let xy ← load s.xy_ (ij2k s.stride_ 0 (s.N_y - 1))
  let out := out ++ [Tok.dbl (xy.2 + s.y_step_ / 2), Tok.endl]
  let out := out ++ [Tok.str "Z_COORDINATES 1 float\n0\n"]
  let out := out ++ [Tok.str "CELL_DATA ", Tok.nat (s.stride_ * s.N_y), Tok.endl]
  let out := out ++ [Tok.str "SCALARS density double 1", Tok.endl]
  let out := out ++ [Tok.str "LOOKUP_TABLE default", Tok.endl]
  let out ← emitGrid 0 s.N_y 0 s.stride_ (densityItem s) out
  let out := out ++ [Tok.str "SCALARS pressure double 1", Tok.endl]
  let out := out ++ [Tok.str "LOOKUP_TABLE default", Tok.endl]
  let out ← emitGrid 0 s.N_y 0 s.stride_ (pressureItem s) out
  let out := out ++ [Tok.str "VECTORS velocity double", Tok.endl]
  let out ← emitGrid 0 s.N_y 0 s.stride_ (velocityItem s) out
  pure out

/-- The primitive states of the points `(i, j)`, `jlo ≤ j < jhi`, `ilo ≤ i < ihi`,
row by row. -/
def gridCells (s : Solver) (jlo jhi ilo ihi : ℕ) : List RUVP :=
  (List.range' jlo (jhi - jlo)).flatMap (fun j =>
    (List.range' ilo (ihi - ilo)).map (fun i =>
      (s.solution_[ij2k s.stride_ i j]?).getD ⟨0, 0, 0, 0⟩))

/-- Closed form of what `VisualVTK` inserts before `CELL_DATA`. -/
def vtkHead (s : Solver) : List Tok :=
  [] ++ [Tok.str "# vtk DataFile Version 3.0\nvtk output\nASCII\nDATASET RECTILINEAR_GRID\n"]
    ++ [Tok.str "DIMENSIONS ", Tok.nat (s.stride_ - 1), Tok.str " ", Tok.nat (s.N_y - 1),
        Tok.str " 1", Tok.endl]
    ++ [Tok.str "X_COORDINATES ", Tok.nat (s.stride_ - 1), Tok.str " float\n"]
    ++ (List.range' 1 (s.stride_ - 1)).flatMap (fun i =>
        [Tok.dbl (((s.xy_[i]?).getD (0, 0)).1 - s.x_step_ / 2), Tok.str " "])
    ++ [Tok.endl]
    ++ [Tok.str "Y_COORDINATES ", Tok.nat (s.N_y - 1), Tok.str " float\n"]
    ++ (List.range' 1 (s.N_y - 1)).flatMap (fun i =>
        [Tok.dbl (((s.xy_[ij2k s.stride_ 0 i]?).getD (0, 0)).2 - s.y_step_ / 2), Tok.str " "])
    ++ [Tok.endl]
    ++ [Tok.str "Z_COORDINATES 1 float\n0\n"]

/-- Closed form of what `VisualVTK_FULL` inserts before `CELL_DATA`. -/
def vtkFullHead (s : Solver) : List Tok :=
  [] ++ [Tok.str "# vtk DataFile Version 3.0\nvtk output\nASCII\nDATASET RECTILINEAR_GRID\n"]
    ++ [Tok.str "DIMENSIONS ", Tok.nat (s.stride_ + 1), Tok.str " ", Tok.nat (s.N_y + 1),
        Tok.str " 1", Tok.endl]
    ++ [Tok.str "X_COORDINATES ", Tok.nat (s.stride_ + 1), Tok.str " float\n"]
    ++ (List.range' 0 (s.stride_ - 0)).flatMap (fun i =>
        [Tok.dbl (((s.xy_[i]?).getD (0, 0)).1 - s.x_step_ / 2), Tok.str " "])
    ++ [Tok.dbl (((s.xy_[s.stride_ - 1]?).getD (0, 0)).1 + s.x_step_ / 2), Tok.endl]
    ++ [Tok.str "Y_COORDINATES ", Tok.nat (s.N_y + 1), Tok.str " float\n"]
    ++ (List.range' 0 (s.N_y - 0)).flatMap (fun i =>
        [Tok.dbl (((s.xy_[ij2k s.stride_ 0 i]?).getD (0, 0)).2 - s.y_step_ / 2), Tok.str " "])
    ++ [Tok.dbl (((s.xy_[ij2k s.stride_ 0 (s.N_y - 1)]?).getD (0, 0)).2 + s.y_step_ / 2),
        Tok.endl]
    ++ [Tok.str "Z_COORDINATES 1 float\n0\n"]

/-! ## Closed forms used in the proofs -/

/-- Closed form of the grid after the first loop of `boundaries`, read at
column `i`, row `j`. -/
def afterRows (N M : ℕ) (Q : List Vector4d) (i j : ℕ) : Option Vector4d :=
  if j = 0 then Q[ij2k N i 1]?.map Vector4d.neg2
  else if j = M - 1 then Q[ij2k N i (M - 2)]?.map Vector4d.neg2
  else Q[ij2k N i j]?

/-- Closed form of one row after its pass of the second loop of `boundaries`,
`R` reading the row before the pass. -/
def afterColsRow (N M : ℕ) (R : ℕ → Option Vector4d) (i : ℕ) : Option Vector4d :=
  if i = 0 then (R 1).map Vector4d.neg1
  else if i = M - 1 then
    (if M = N then (R (M - 2)).map Vector4d.neg1 else (R (M - 1)).map Vector4d.neg1)
  else if i = N - 1 then R (M - 2)
  else R i

/-- Closed form of the grid after `boundaries`, read at column `i`, row `j`. -/
def afterBoundaries (N M : ℕ) (Q : List Vector4d) (i j : ℕ) : Option Vector4d :=
  afterColsRow N M (fun c => afterRows N M Q c j) i

/-- The states in which the four arrays have the length of the mesh and `F_`,
`G_`, `solution_` are derived from `Q_` point by point. -/
def Consistent (γ : ℚ) (s : Solver) : Prop :=
  s.Q_.length = s.xy_.length ∧ s.F_.length = s.xy_.length ∧ s.G_.length = s.xy_.length ∧
  s.solution_.length = s.xy_.length ∧
  ∀ k, k < s.xy_.length →
    s.F_[k]? = s.Q_[k]?.map (Q2F γ) ∧ s.G_[k]? = s.Q_[k]?.map (Q2G γ) ∧
    s.solution_[k]? = s.Q_[k]?.map (Q2var γ)

instance (γ : ℚ) (s : Solver) : Decidable (Consistent γ s) := by
  unfold Consistent
  infer_instance


/-- A uniform 3 x 3 field with `r = 1, u = 1, v = 1/2, p = 1` and `γ = 7/5`. -/
def uniform33 : List Vector4d := List.replicate (3 * 3) (var2Q (7 / 5) ⟨1, 1, 1 / 2, 1⟩)

/-- A uniform 4 x 3 field with `r = 1, u = 1, v = 1/2, p = 1` and `γ = 7/5`. -/
def uniform43 : List Vector4d := List.replicate (4 * 3) (var2Q (7 / 5) ⟨1, 1, 1 / 2, 1⟩)

/-- The nodes of a 3 x 3 mesh with unit spacing. -/
def mesh33 : List (ℚ × ℚ) :=
  [(0, 0), (1, 0), (2, 0), (0, 1), (1, 1), (2, 1), (0, 2), (1, 2), (2, 2)]

/-- A function that is the square root at `1`, the only argument it is given in
the runs below. -/
def sqrtUnit : ℚ → ℚ := fun x => if x = 1 then 1 else 0

/-- The solver built on `mesh33` from the field at rest `r = 1, u = v = 0,
p = 5/7` with `γ = 7/5`, seed step `1` and Courant number `1/2`. -/
def rest33 : Solver :=
  { xy_ := mesh33
    solution_ := List.replicate 9 ⟨1, 0, 0, 5 / 7⟩
    Q_ := List.replicate 9 ⟨1, 0, 0, 25 / 14⟩
    F_ := List.replicate 9 ⟨0, 5 / 7, 0, 0⟩
    G_ := List.replicate 9 ⟨0, 0, 5 / 7, 0⟩
    dt_ := 1, time_ := 0, x_step_ := 1, y_step_ := 1, cour_ := 1 / 2
    stride_ := 3, N_y := 3 }

/-- A solver state with the single point `r = 1, u = 0, v = 0, p = 1`
(`γ = 7/5`). -/
def onePoint : Solver :=
  { xy_ := [(0, 0)]
    solution_ := [⟨1, 0, 0, 1⟩]
    Q_ := [⟨1, 0, 0, 5 / 2⟩]
    F_ := [⟨0, 1, 0, 0⟩]
    G_ := [⟨0, 0, 1, 0⟩]
    dt_ := 1, time_ := 0, x_step_ := 1, y_step_ := 1, cour_ := 1 / 2
    stride_ := 1, N_y := 1 }

/-- A 3 x 3 field that holds the state of `uniform33` at the interior point and
zeros on the outer ring. -/
def hollow33 : List Vector4d :=
  List.replicate 4 default ++ [var2Q (7 / 5) ⟨1, 1, 1 / 2, 1⟩] ++ List.replicate 4 default

/-- A solver state on a grid of 5 columns and 4 rows with unit spacing, uniform
with `r = 1, u = v = 0, p = 1` (`γ = 7/5`). -/
def grid54 : Solver :=
  { xy_ := (List.range 20).map (fun k => (((k % 5 : ℕ) : ℚ), ((k / 5 : ℕ) : ℚ)))
    solution_ := List.replicate 20 ⟨1, 0, 0, 1⟩
    Q_ := List.replicate 20 ⟨1, 0, 0, 5 / 2⟩
    F_ := List.replicate 20 ⟨0, 1, 0, 0⟩
    G_ := List.replicate 20 ⟨0, 0, 1, 0⟩
    dt_ := 1, time_ := 0, x_step_ := 1, y_step_ := 1, cour_ := 1 / 2
    stride_ := 5, N_y := 4 }

/-- A reference of two points for `grid54`: the state of `grid54` at both, but
for the velocity `u` of the first, which is the least positive double
`2 ^ (-1074)` and not `0`. -/
def tinyReference : List RUVP := [⟨1, pow2 (-1074), 0, 1⟩, ⟨1, 0, 0, 1⟩]

/-! ## Theorems -/

/-! ### Variable model -/

/-- C1. Round trip primitive -> conservative -> primitive: for a primitive
state with `r > 0` and `γ ≠ 1`, `Q2var (var2Q s) = s`, all four of density,
both velocities and pressure being recovered. -/
theorem Q2var_var2Q (γ : ℚ) (s : RUVP) (hr : 0 < s.r) (hγ : γ ≠ 1) :
    Q2var γ (var2Q γ s) = s := by
  obtain ⟨r, u, v, p⟩ := s
  have hr0 : r ≠ 0 := ne_of_gt hr
  have hg : γ - 1 ≠ 0 := sub_ne_zero.mpr hγ
  simp only [Q2var, var2Q, RUVP.mk.injEq]
  refine ⟨trivial, ?_, ?_, ?_⟩
  · field_simp
  · field_simp
  · field_simp
    ring

/-- Witness of C1 at `r = 2, u = 3, v = -1, p = 5`, `γ = 7/5`. -/
theorem Q2var_var2Q_witness :
    (0 : ℚ) < (RUVP.mk 2 3 (-1) 5).r ∧ (7 / 5 : ℚ) ≠ 1 ∧
      Q2var (7 / 5) (var2Q (7 / 5) ⟨2, 3, -1, 5⟩) = ⟨2, 3, -1, 5⟩ :=
  ⟨by norm_num, by norm_num, Q2var_var2Q (7 / 5) ⟨2, 3, -1, 5⟩ (by norm_num) (by norm_num)⟩

/-- C2. Flux form: for a primitive state with `r ≠ 0` and `γ ≠ 1`, with
`Q = var2Q (r,u,v,p)` and `E = Q[3]`, `Q2F Q = [r u, r u² + p, r u v, u (E + p)]`
and `Q2G Q = [r v, r u v, r v² + p, v (E + p)]`. -/
theorem Q2F_Q2G_var2Q (γ r u v p : ℚ) (hr : r ≠ 0) (hγ : γ ≠ 1) :
    (var2Q γ ⟨r, u, v, p⟩).c3 = r * (u ^ 2 + v ^ 2) / 2 + p / (γ - 1) ∧
    Q2F γ (var2Q γ ⟨r, u, v, p⟩)
      = ⟨r * u, r * u ^ 2 + p, r * u * v, u * ((var2Q γ ⟨r, u, v, p⟩).c3 + p)⟩ ∧
    Q2G γ (var2Q γ ⟨r, u, v, p⟩)
      = ⟨r * v, r * u * v, r * v ^ 2 + p, v * ((var2Q γ ⟨r, u, v, p⟩).c3 + p)⟩ := by
  have hg : γ - 1 ≠ 0 := sub_ne_zero.mpr hγ
  have hu : r * u / r = u := by field_simp
  have hv : r * v / r = v := by field_simp
  have hp : (r * (u * u + v * v) / 2 + p / (γ - 1) - r * (u * u + v * v) / 2) * (γ - 1) = p := by
    field_simp
    ring
  refine ⟨?_, ?_, ?_⟩
  · simp only [var2Q]; ring
  · simp only [Q2F, var2Q, hu, hv, hp, Vector4d.mk.injEq]
    refine ⟨trivial, ?_, trivial, trivial⟩
    ring
  · simp only [Q2G, var2Q, hu, hv, hp, Vector4d.mk.injEq]
    refine ⟨trivial, trivial, ?_, trivial⟩
    ring

/-- Witness of C2 at `r = 2, u = 3, v = -1, p = 5`, `γ = 7/5`. -/
theorem Q2F_Q2G_var2Q_witness :
    (2 : ℚ) ≠ 0 ∧ (7 / 5 : ℚ) ≠ 1 ∧
    Q2F (7 / 5) (var2Q (7 / 5) ⟨2, 3, -1, 5⟩)
      = ⟨2 * 3, 2 * 3 ^ 2 + 5, 2 * 3 * (-1), 3 * ((var2Q (7 / 5) ⟨2, 3, -1, 5⟩).c3 + 5)⟩ :=
  ⟨by norm_num, by norm_num,
    (Q2F_Q2G_var2Q (7 / 5) 2 3 (-1) 5 (by norm_num) (by norm_num)).2.1⟩

/-- C3. Flux at rest: for a state with `u = 0`, `v = 0`, any `r ≠ 0` and any
`p` (the gas constant being `γ ≠ 1`), `Q2F (var2Q (r,0,0,p)) = [0, p, 0, 0]`
and `Q2G (var2Q (r,0,0,p)) = [0, 0, p, 0]`. -/
theorem flux_at_rest (γ r p : ℚ) (_hr : r ≠ 0) (hγ : γ ≠ 1) :
    Q2F γ (var2Q γ ⟨r, 0, 0, p⟩) = ⟨0, p, 0, 0⟩ ∧
    Q2G γ (var2Q γ ⟨r, 0, 0, p⟩) = ⟨0, 0, p, 0⟩ := by
  have hg : γ - 1 ≠ 0 := sub_ne_zero.mpr hγ
  have hp : p / (γ - 1) * (γ - 1) = p := by field_simp
  constructor
  · simp [Q2F, var2Q, hp]
  · simp [Q2G, var2Q, hp]

/-- Witness of C3 at `r = 2, p = 5`, `γ = 7/5`. -/
theorem flux_at_rest_witness :
    (2 : ℚ) ≠ 0 ∧ (7 / 5 : ℚ) ≠ 1 ∧
    Q2F (7 / 5) (var2Q (7 / 5) ⟨2, 0, 0, 5⟩) = ⟨0, 5, 0, 0⟩ ∧
    Q2G (7 / 5) (var2Q (7 / 5) ⟨2, 0, 0, 5⟩) = ⟨0, 0, 5, 0⟩ :=
  ⟨by norm_num, by norm_num, flux_at_rest (7 / 5) 2 5 (by norm_num) (by norm_num)⟩

/-! ### Loops and indices -/

theorem forLoop_zero {σ : Type} (lo : ℕ) (body : σ → ℕ → Option σ) (s : σ) :
    forLoop lo lo body s = some s := by
  simp [forLoop]

theorem forLoop_succ {σ : Type} (lo n : ℕ) (body : σ → ℕ → Option σ) (s : σ) :
    forLoop lo (lo + (n + 1)) body s = (forLoop lo (lo + n) body s).bind (fun t => body t (lo + n)) := by
  simp [forLoop, List.range'_concat, List.foldlM_append]

theorem ij2k_eq_iff {N i j i' j' : ℕ} (hi : i < N) (hi' : i' < N) :
    ij2k N i j = ij2k N i' j' ↔ i = i' ∧ j = j' := by
  unfold ij2k
  constructor
  · intro h
    have h1 : (i + j * N) % N = (i' + j' * N) % N := by rw [h]
    have h2 : (i + j * N) / N = (i' + j' * N) / N := by rw [h]
    have hN : 0 < N := by omega
    rw [Nat.add_mul_mod_self_right, Nat.add_mul_mod_self_right, Nat.mod_eq_of_lt hi,
      Nat.mod_eq_of_lt hi'] at h1
    rw [Nat.add_mul_div_right _ _ hN, Nat.add_mul_div_right _ _ hN, Nat.div_eq_of_lt hi,
      Nat.div_eq_of_lt hi'] at h2
    omega
  · rintro ⟨rfl, rfl⟩; rfl

theorem ij2k_lt {N M i j : ℕ} (hi : i < N) (hj : j < M) : ij2k N i j < N * M := by
  unfold ij2k
  have : (j + 1) * N ≤ M * N := Nat.mul_le_mul_right N hj
  nlinarith

theorem getElem?_some_of_lt {α : Type} {vec : List α} {k : ℕ} (h : k < vec.length) :
    ∃ a, vec[k]? = some a := ⟨vec[k], by simp [h]⟩

/-- Closed form of one pass of the first loop body. -/
theorem boundariesRows_eq {N M n : ℕ} {Q : List Vector4d} (hM : 3 ≤ M) (hn : n < N)
    (hlen : N * M ≤ Q.length) :
    ∃ a c, Q[ij2k N n 1]? = some a ∧ Q[ij2k N n (M - 2)]? = some c ∧
      boundariesRows N M Q n
        = some ((Q.set (ij2k N n 0) a.neg2).set (ij2k N n (M - 1)) c.neg2) := by
  have b0 : ij2k N n 0 < Q.length := lt_of_lt_of_le (ij2k_lt hn (by omega)) hlen
  have b1 : ij2k N n 1 < Q.length := lt_of_lt_of_le (ij2k_lt hn (by omega)) hlen
  have b2 : ij2k N n (M - 2) < Q.length := lt_of_lt_of_le (ij2k_lt hn (by omega)) hlen
  have b3 : ij2k N n (M - 1) < Q.length := lt_of_lt_of_le (ij2k_lt hn (by omega)) hlen
  have e20 : ij2k N n 0 ≠ ij2k N n (M - 2) := by
    rw [Ne, ij2k_eq_iff hn hn]; omega
  obtain ⟨a, ha⟩ := getElem?_some_of_lt b1
  obtain ⟨c, hc⟩ := getElem?_some_of_lt b2
  refine ⟨a, c, ha, hc, ?_⟩
  simp [boundariesRows, load, store, ha, hc, b0, b3, List.getElem?_set, e20]

/-- Effect of one pass of the first loop body on every cell of the grid. -/
theorem boundariesRows_spec {N M n : ℕ} {Q : List Vector4d} (hM : 3 ≤ M) (hn : n < N)
    (hlen : N * M ≤ Q.length) :
    ∃ Q', boundariesRows N M Q n = some Q' ∧ Q'.length = Q.length ∧
      ∀ i j, i < N → Q'[ij2k N i j]? =
        if i = n ∧ j = 0 then Q[ij2k N n 1]?.map Vector4d.neg2
        else if i = n ∧ j = M - 1 then Q[ij2k N n (M - 2)]?.map Vector4d.neg2
        else Q[ij2k N i j]? := by
  have b0 : ij2k N n 0 < Q.length := lt_of_lt_of_le (ij2k_lt hn (by omega)) hlen
  have b3 : ij2k N n (M - 1) < Q.length := lt_of_lt_of_le (ij2k_lt hn (by omega)) hlen
  obtain ⟨a, c, ha, hc, h⟩ := boundariesRows_eq hM hn hlen
  refine ⟨_, h, by simp, ?_⟩
  intro i j hi
  simp only [List.getElem?_set, ij2k_eq_iff hn hi, List.length_set, b0, b3, ha, hc, Option.map_some']
  by_cases h1 : i = n ∧ j = M - 1
  · obtain ⟨rfl, rfl⟩ := h1
    have : ¬ (M - 1 = 0) := by omega
    simp [this]
  · have h1' : ¬ (n = i ∧ M - 1 = j) := by omega
    by_cases h2 : i = n ∧ j = 0
    · obtain ⟨rfl, rfl⟩ := h2
      have : ¬ (M - 1 = 0) := by omega
      simp [this]
    · have h2' : ¬ (n = i ∧ 0 = j) := by omega
      rw [if_neg h1', if_neg h2', if_neg h2, if_neg h1]

theorem forLoop_zero_succ {σ : Type} (n : ℕ) (body : σ → ℕ → Option σ) (s : σ) :
    forLoop 0 (n + 1) body s = (forLoop 0 n body s).bind (fun t => body t n) := by
  have := forLoop_succ 0 n body s
  simpa using this

/-- Invariant of the first loop of `boundaries` after `n` passes. -/
theorem rows_loop_spec {N M : ℕ} {Q : List Vector4d} (hM : 3 ≤ M)
    (hlen : N * M ≤ Q.length) (n : ℕ) (hn : n ≤ N) :
    ∃ Q', forLoop 0 n (boundariesRows N M) Q = some Q' ∧ Q'.length = Q.length ∧
      ∀ i j, i < N → Q'[ij2k N i j]? = if i < n then afterRows N M Q i j else Q[ij2k N i j]? := by
  induction n with
  | zero => exact ⟨Q, forLoop_zero 0 _ Q, rfl, by simp⟩
  | succ n ih =>
    obtain ⟨Q1, h1, hl1, hc1⟩ := ih (by omega)
    have hn' : n < N := by omega
    obtain ⟨Q2, h2, hl2, hc2⟩ := boundariesRows_spec (Q := Q1) hM hn' (by omega)
    refine ⟨Q2, ?_, by omega, ?_⟩
    · rw [forLoop_zero_succ, h1]; exact h2
    · intro i j hi
      rw [hc2 i j hi, hc1 n 1 hn', hc1 n (M - 2) hn', hc1 i j hi]
      simp only [lt_irrefl, if_false, afterRows]
      by_cases hin : i = n
      · subst hin
        have : i < i + 1 := by omega
        simp only [true_and, this, if_true]
        by_cases hj0 : j = 0
        · simp [hj0]
        · simp [hj0]
      · have : (i < n + 1) = (i < n) := by
          apply propext; omega
        simp [hin, this]

/-- Closed form of one pass of the second loop body. -/
theorem boundariesCols_eq {N M m : ℕ} {Q : List Vector4d} (hM : 3 ≤ M) (hMN : M ≤ N)
    (hm : m < M) (hlen : N * M ≤ Q.length) :
    ∃ a c d, Q[ij2k N 1 m]? = some a ∧ Q[ij2k N (M - 2) m]? = some c ∧
      Q[ij2k N (M - 1) m]? = some d ∧
      boundariesCols N M Q m
        = some (((Q.set (ij2k N 0 m) a.neg1).set (ij2k N (N - 1) m) c).set (ij2k N (M - 1) m)
            (if M = N then c.neg1 else d.neg1)) := by
  have i0 : 0 < N := by omega
  have i1 : 1 < N := by omega
  have i2 : M - 2 < N := by omega
  have i3 : M - 1 < N := by omega
  have i4 : N - 1 < N := by omega
  have b0 : ij2k N 0 m < Q.length := lt_of_lt_of_le (ij2k_lt i0 hm) hlen
  have b1 : ij2k N 1 m < Q.length := lt_of_lt_of_le (ij2k_lt i1 hm) hlen
  have b2 : ij2k N (M - 2) m < Q.length := lt_of_lt_of_le (ij2k_lt i2 hm) hlen
  have b3 : ij2k N (M - 1) m < Q.length := lt_of_lt_of_le (ij2k_lt i3 hm) hlen
  have b4 : ij2k N (N - 1) m < Q.length := lt_of_lt_of_le (ij2k_lt i4 hm) hlen
  have e20 : ij2k N 0 m ≠ ij2k N (M - 2) m := by
    rw [Ne, ij2k_eq_iff i0 i2]; omega
  have e30 : ij2k N 0 m ≠ ij2k N (M - 1) m := by
    rw [Ne, ij2k_eq_iff i0 i3]; omega
  obtain ⟨a, ha⟩ := getElem?_some_of_lt b1
  obtain ⟨c, hc⟩ := getElem?_some_of_lt b2
  obtain ⟨d, hd⟩ := getElem?_some_of_lt b3
  refine ⟨a, c, d, ha, hc, hd, ?_⟩
  by_cases hsq : M = N
  · subst hsq
    simp [boundariesCols, load, store, ha, hc, b0, b3, List.getElem?_set, e20]
  · have e43 : ij2k N (N - 1) m ≠ ij2k N (M - 1) m := by
      rw [Ne, ij2k_eq_iff i4 i3]; omega
    have hd' : Q[ij2k N (M - 1) m] = d := by
      rw [List.getElem?_eq_getElem b3] at hd
      exact Option.some.inj hd
    simp [boundariesCols, load, store, ha, hc, hd', b0, b3, b4, List.getElem?_set, e20, e30, e43,
      hsq]

/-- Effect of one pass of the second loop body on every cell of the grid. -/
theorem boundariesCols_spec {N M m : ℕ} {Q : List Vector4d} (hM : 3 ≤ M) (hMN : M ≤ N)
    (hm : m < M) (hlen : N * M ≤ Q.length) :
    ∃ Q', boundariesCols N M Q m = some Q' ∧ Q'.length = Q.length ∧
      ∀ i j, i < N → Q'[ij2k N i j]? =
        if j = m then afterColsRow N M (fun c => Q[ij2k N c m]?) i else Q[ij2k N i j]? := by
  have i0 : 0 < N := by omega
  have i3 : M - 1 < N := by omega
  have i4 : N - 1 < N := by omega
  have b0 : ij2k N 0 m < Q.length := lt_of_lt_of_le (ij2k_lt i0 hm) hlen
  have b3 : ij2k N (M - 1) m < Q.length := lt_of_lt_of_le (ij2k_lt i3 hm) hlen
  have b4 : ij2k N (N - 1) m < Q.length := lt_of_lt_of_le (ij2k_lt i4 hm) hlen
  obtain ⟨a, c, d, ha, hc, hd, h⟩ := boundariesCols_eq hM hMN hm hlen
  refine ⟨_, h, by simp, ?_⟩
  intro i j hi
  simp only [List.getElem?_set, ij2k_eq_iff i0 hi, ij2k_eq_iff i3 hi, ij2k_eq_iff i4 hi,
    List.length_set, b0, b3, b4, afterColsRow, ha, hc, hd, Option.map_some', if_true]
  by_cases hj : j = m
  · subst hj
    simp only [and_true, if_true]
    by_cases h3 : i = M - 1
    · subst h3
      have : ¬ (M - 1 = 0) := by omega
      simp only [this, if_false, and_self, if_true]
      split_ifs <;> rfl
    · have h3' : ¬ (M - 1 = i) := by omega
      by_cases h4 : i = N - 1
      · subst h4
        have : ¬ (N - 1 = 0) := by omega
        simp [this, h3, h3']
      · have h4' : ¬ (N - 1 = i) := by omega
        by_cases h0 : i = 0
        · subst h0; simp [h3', h4']
        · have h0' : ¬ (0 = i) := by omega
          simp [h0, h0', h3, h3', h4, h4']
  · have hj' : ¬ (m = j) := by omega
    simp [hj, hj']

/-- Invariant of the second loop of `boundaries` after `m` passes. -/
theorem cols_loop_spec {N M : ℕ} {Q : List Vector4d} (hM : 3 ≤ M) (hMN : M ≤ N)
    (hlen : N * M ≤ Q.length) (m : ℕ) (hm : m ≤ M) :
    ∃ Q', forLoop 0 m (boundariesCols N M) Q = some Q' ∧ Q'.length = Q.length ∧
      ∀ i j, i < N → Q'[ij2k N i j]? =
        if j < m then afterColsRow N M (fun c => Q[ij2k N c j]?) i else Q[ij2k N i j]? := by
  induction m with
  | zero => exact ⟨Q, forLoop_zero 0 _ Q, rfl, by simp⟩
  | succ m ih =>
    obtain ⟨Q1, h1, hl1, hc1⟩ := ih (by omega)
    have hm' : m < M := by omega
    obtain ⟨Q2, h2, hl2, hc2⟩ := boundariesCols_spec (Q := Q1) hM hMN hm' (by omega)
    refine ⟨Q2, ?_, by omega, ?_⟩
    · rw [forLoop_zero_succ, h1]; exact h2
    · intro i j hi
      rw [hc2 i j hi, hc1 i j hi]
      by_cases hj : j = m
      · subst hj
        have : j < j + 1 := by omega
        simp only [this, if_true]
        simp only [afterColsRow]
        rw [hc1 1 j (by omega), hc1 (M - 2) j (by omega), hc1 (M - 1) j (by omega),
          hc1 i j hi]
        simp
      · have : (j < m + 1) = (j < m) := by
          apply propext; omega
        simp [hj, this]

/-- On a grid with `3 ≤ N_y ≤ N_x` the call `boundaries()` returns, keeps the
length of `Q_`, and leaves at every point the closed form `afterBoundaries`. -/
theorem boundaries_spec {N M : ℕ} {Q : List Vector4d} (hM : 3 ≤ M) (hMN : M ≤ N)
    (hlen : N * M ≤ Q.length) :
    ∃ Q', boundaries N M Q = some Q' ∧ Q'.length = Q.length ∧
      ∀ i j, i < N → j < M → Q'[ij2k N i j]? = afterBoundaries N M Q i j := by
  obtain ⟨Q1, h1, hl1, hc1⟩ := rows_loop_spec (Q := Q) hM hlen N le_rfl
  obtain ⟨Q2, h2, hl2, hc2⟩ := cols_loop_spec (Q := Q1) hM hMN (by omega) M le_rfl
  refine ⟨Q2, ?_, by omega, ?_⟩
  · simp [boundaries, h1, h2]
  · intro i j hi hj
    rw [hc2 i j hi, if_pos hj]
    simp only [afterBoundaries, afterColsRow]
    rw [hc1 1 j (by omega), hc1 (M - 2) j (by omega), hc1 (M - 1) j (by omega), hc1 i j hi]
    have e1 : (1 : ℕ) < N := by omega
    have e2 : M - 2 < N := by omega
    have e3 : M - 1 < N := by omega
    simp [e1, e2, e3, hi]

theorem map_neg1_map_neg2 (x : Option Vector4d) :
    (x.map Vector4d.neg2).map Vector4d.neg1 = (x.map Vector4d.neg1).map Vector4d.neg2 := by
  cases x <;> simp [Vector4d.neg1, Vector4d.neg2]

/-! ### Claims on `boundaries` -/

/-- C4. Bottom and top wall reflection: on a grid with `3 ≤ N_y ≤ N_x` and any
conservative field, `boundaries()` returns, and in the field it leaves, for every
column `i < N_x`, the state at `(i, 0)` is the state at `(i, 1)` with component 2
negated and the others kept, and the state at `(i, N_y - 1)` is the state at
`(i, N_y - 2)` with component 2 negated and the others kept; for the columns
`1 ≤ i ≤ N_x - 2` the rows 1 and `N_y - 2` hold the values they had before the
call, except that for `N_x > N_y` the column `N_y - 1` has its x-momentum negated. -/
theorem boundaries_bottom_top (N M : ℕ) (Q : List Vector4d) (hM : 3 ≤ M) (hMN : M ≤ N)
    (hlen : Q.length = N * M) :
    ∃ Q', boundaries N M Q = some Q' ∧ Q'.length = N * M ∧
      (∀ i, i < N →
        Q'[ij2k N i 0]? = Q'[ij2k N i 1]?.map Vector4d.neg2 ∧
        Q'[ij2k N i (M - 1)]? = Q'[ij2k N i (M - 2)]?.map Vector4d.neg2) ∧
      (∀ i, 1 ≤ i → i ≤ N - 2 →
        Q'[ij2k N i 1]?
          = (if M < N ∧ i = M - 1 then Q[ij2k N i 1]?.map Vector4d.neg1 else Q[ij2k N i 1]?) ∧
        Q'[ij2k N i (M - 2)]?
          = (if M < N ∧ i = M - 1 then Q[ij2k N i (M - 2)]?.map Vector4d.neg1
             else Q[ij2k N i (M - 2)]?)) := by
  obtain ⟨Q', h, hl, hc⟩ := boundaries_spec (Q := Q) hM hMN (le_of_eq hlen.symm)
  have f1 : ¬ (M - 1 = 0) := by omega
  have f2 : ¬ (M - 2 = 0) := by omega
  have f3 : ¬ (M - 2 = M - 1) := by omega
  have f4 : ¬ (1 = M - 1) := by omega
  refine ⟨Q', h, by omega, ?_, ?_⟩
  · intro i hi
    rw [hc i 0 hi (by omega), hc i 1 hi (by omega), hc i (M - 1) hi (by omega),
      hc i (M - 2) hi (by omega)]
    simp only [afterBoundaries, afterColsRow, afterRows, f1, f2, f3, f4, if_true, if_false,
      one_ne_zero]
    constructor <;> split_ifs <;> first | rfl | exact map_neg1_map_neg2 _
  · intro i h1 h2
    have hi : i < N := by omega
    have g0 : ¬ (i = 0) := by omega
    have g1 : ¬ (i = N - 1) := by omega
    rw [hc i 1 hi (by omega), hc i (M - 2) hi (by omega)]
    simp only [afterBoundaries, afterColsRow, afterRows, f1, f2, f3, f4, g0, g1, if_true, if_false,
      one_ne_zero]
    constructor <;> split_ifs <;> first | rfl | omega | simp_all

theorem replicate_cell {N M i j : ℕ} (q : Vector4d) (hi : i < N) (hj : j < M) :
    (List.replicate (N * M) q)[ij2k N i j]? = some q := by
  simp [List.getElem?_replicate, ij2k_lt hi hj]


/-- C5, as amended. On a grid with `3 ≤ N_y ≤ N_x` whose conservative state is
`var2Q (r, u, 1/2, p)` at every point, `boundaries()` returns and every point of
the bottom row and of the top row, in every column, has y-momentum `-(1/2) r` and
components 0 and 3 equal to `r` and `E`; its component 1 is `r u` in the columns
`1 ≤ i ≤ N_x - 2` other than column `N_y - 1`, and `-(r u)` in column 0 and, on a
square grid, in column `N_x - 1`. -/
theorem boundaries_uniform (γ r u p : ℚ) (N M : ℕ) (hM : 3 ≤ M) (hMN : M ≤ N) :
    ∃ Q', boundaries N M (List.replicate (N * M) (var2Q γ ⟨r, u, 1 / 2, p⟩)) = some Q' ∧
      ∀ i j, i < N → (j = 0 ∨ j = M - 1) →
        ∃ x, Q'[ij2k N i j]? = some x ∧
          x.c2 = -(1 / 2) * r ∧ x.c0 = r ∧ x.c3 = (var2Q γ ⟨r, u, 1 / 2, p⟩).c3 ∧
          (1 ≤ i → i ≤ N - 2 → i ≠ M - 1 → x.c1 = r * u) ∧
          (i = 0 → x.c1 = -(r * u)) ∧
          (M = N → i = N - 1 → x.c1 = -(r * u)) := by
  obtain ⟨Q', h, hl, hc⟩ := boundaries_spec (N := N) (M := M)
    (Q := List.replicate (N * M) (var2Q γ ⟨r, u, 1 / 2, p⟩)) hM hMN (by simp)
  refine ⟨Q', h, ?_⟩
  intro i j hi hj
  have hj' : j < M := by omega
  have c1 : (1 : ℕ) < N := by omega
  have c2 : M - 2 < N := by omega
  have c3 : M - 1 < N := by omega
  have r1 : (1 : ℕ) < M := by omega
  have r2 : M - 2 < M := by omega
  have f1 : ¬ (M - 1 = 0) := by omega
  rw [hc i j hi hj']
  simp only [afterBoundaries, afterColsRow, afterRows, replicate_cell _ c1 r1,
    replicate_cell _ c1 r2, replicate_cell _ c2 r1, replicate_cell _ c2 r2,
    replicate_cell _ c3 r1, replicate_cell _ c3 r2, replicate_cell _ hi r1,
    replicate_cell _ hi r2, replicate_cell _ hi hj', replicate_cell _ c1 hj',
    replicate_cell _ c2 hj', replicate_cell _ c3 hj']
  rcases hj with rfl | rfl
  · simp only [if_true, Option.map_some']
    split_ifs <;> refine ⟨_, rfl, ?_, ?_, ?_, ?_, ?_, ?_⟩ <;>
      first
        | (intros; omega)
        | (simp only [Vector4d.neg1, Vector4d.neg2, var2Q]; done)
        | (simp only [Vector4d.neg1, Vector4d.neg2, var2Q]; intros; first | trivial | ring)
  · simp only [f1, if_true, if_false, Option.map_some']
    split_ifs <;> refine ⟨_, rfl, ?_, ?_, ?_, ?_, ?_, ?_⟩ <;>
      first
        | (intros; omega)
        | (simp only [Vector4d.neg1, Vector4d.neg2, var2Q]; done)
        | (simp only [Vector4d.neg1, Vector4d.neg2, var2Q]; intros; first | trivial | ring)


/-- Witness of C4 on the uniform 3 x 3 field. -/
theorem boundaries_bottom_top_witness :
    3 ≤ 3 ∧ uniform33.length = 3 * 3 ∧
    ∃ Q', boundaries 3 3 uniform33 = some Q' ∧ Q'.length = 3 * 3 ∧
      ∀ i, i < 3 →
        Q'[ij2k 3 i 0]? = Q'[ij2k 3 i 1]?.map Vector4d.neg2 ∧
        Q'[ij2k 3 i (3 - 1)]? = Q'[ij2k 3 i (3 - 2)]?.map Vector4d.neg2 :=
  ⟨le_refl 3, by simp [uniform33],
    (boundaries_bottom_top 3 3 uniform33 (le_refl 3) (le_refl 3) (by simp [uniform33])).imp
      (fun _ h => ⟨h.1, h.2.1, h.2.2.1⟩)⟩

/-- Witness of C5, as amended, on the uniform 4 x 3 field. -/
theorem boundaries_uniform_witness :
    3 ≤ 3 ∧ 3 ≤ 4 ∧
    ∃ Q', boundaries 4 3 (List.replicate (4 * 3) (var2Q (7 / 5) ⟨1, 1, 1 / 2, 1⟩)) = some Q' ∧
      ∀ i j, i < 4 → (j = 0 ∨ j = 3 - 1) →
        ∃ x, Q'[ij2k 4 i j]? = some x ∧ x.c2 = -(1 / 2) * 1 ∧ x.c0 = 1 :=
  ⟨le_refl 3, by decide,
    (boundaries_uniform (7 / 5) 1 1 1 4 3 (le_refl 3) (by decide)).imp
      (fun _ h => ⟨h.1, fun i j hi hj =>
        (h.2 i j hi hj).imp (fun _ hx => ⟨hx.1, hx.2.1, hx.2.2.1⟩)⟩)⟩

/-- C5, counterexample. On the uniform 3 x 3 field with `r = 1, u = 1, v = 1/2,
p = 1`, the bottom-row point `(0, 0)` has component 1 equal to `-1` after
`boundaries()`, not to `r u = 1`. -/
theorem boundaries_uniform_corner :
    ¬ (∀ Q', boundaries 3 3 uniform33 = some Q' →
        ∀ i, i < 3 → ∃ x, Q'[ij2k 3 i 0]? = some x ∧ x.c2 = -(1 / 2) * 1 ∧
          x.c0 = 1 ∧ x.c1 = 1 * 1 ∧ x.c3 = (var2Q (7 / 5) ⟨1, 1, 1 / 2, 1⟩).c3) := by
  intro hall
  obtain ⟨Q', h, -, hc⟩ := boundaries_spec (N := 3) (M := 3) (Q := uniform33) (le_refl 3)
    (le_refl 3) (by simp [uniform33])
  obtain ⟨x, hx, -, -, h1, -⟩ := hall Q' h 0 (by decide)
  rw [hc 0 0 (by decide) (by decide)] at hx
  have e : uniform33[ij2k 3 1 1]? = some (var2Q (7 / 5) ⟨1, 1, 1 / 2, 1⟩) :=
    replicate_cell _ (by decide) (by decide)
  simp only [afterBoundaries, afterColsRow, afterRows, if_true, e, Option.map_some',
    Option.some.injEq] at hx
  rw [← hx] at h1
  simp [Vector4d.neg1, Vector4d.neg2, var2Q] at h1
  norm_num at h1

/-- C6, the code at the failing input. On the uniform 4 x 3 field with `r = 1,
u = 1, v = 1/2, p = 1` the interior point `(2, 1)` holds x-momentum `1` before
`boundaries()` and `-1` after it. -/
theorem boundaries_interior_43 :
    uniform43[ij2k 4 2 1]? = some (var2Q (7 / 5) ⟨1, 1, 1 / 2, 1⟩) ∧
    (var2Q (7 / 5) ⟨1, 1, 1 / 2, 1⟩).c1 = 1 ∧
    ∃ Q' x, boundaries 4 3 uniform43 = some Q' ∧ Q'[ij2k 4 2 1]? = some x ∧ x.c1 = -1 := by
  have e : uniform43[ij2k 4 2 1]? = some (var2Q (7 / 5) ⟨1, 1, 1 / 2, 1⟩) :=
    replicate_cell _ (by decide) (by decide)
  obtain ⟨Q', h, -, hc⟩ := boundaries_spec (N := 4) (M := 3) (Q := uniform43) (le_refl 3)
    (by decide) (by simp [uniform43])
  refine ⟨e, by simp [var2Q], Q', (var2Q (7 / 5) ⟨1, 1, 1 / 2, 1⟩).neg1, h, ?_, ?_⟩
  · rw [hc 2 1 (by decide) (by decide)]
    simp [afterBoundaries, afterColsRow, afterRows, e]
  · simp [Vector4d.neg1, var2Q]

/-! ### Invariants of loops -/

theorem forLoop_of_le {σ : Type} {lo hi : ℕ} (h : hi ≤ lo) (body : σ → ℕ → Option σ) (s : σ) :
    forLoop lo hi body s = some s := by
  simp [forLoop, Nat.sub_eq_zero_of_le h]

theorem forLoop_snoc {σ : Type} {lo k : ℕ} (h : lo ≤ k) (body : σ → ℕ → Option σ) (s : σ) :
    forLoop lo (k + 1) body s = (forLoop lo k body s).bind (fun t => body t k) := by
  obtain ⟨n, rfl⟩ := Nat.exists_eq_add_of_le h
  exact forLoop_succ lo n body s

/-- A loop whose passes all return and carry the invariant `I` from `k` to
`k + 1` returns, with the invariant at the upper bound. -/
theorem forLoop_total {σ : Type} (I : ℕ → σ → Prop) (body : σ → ℕ → Option σ) {lo hi : ℕ}
    (hle : lo ≤ hi) (s : σ) (h0 : I lo s)
    (hstep : ∀ k t, lo ≤ k → k < hi → I k t → ∃ t', body t k = some t' ∧ I (k + 1) t') :
    ∃ s', forLoop lo hi body s = some s' ∧ I hi s' := by
  induction hi with
  | zero =>
    have : lo = 0 := by omega
    subst this
    exact ⟨s, forLoop_zero 0 body s, h0⟩
  | succ n ih =>
    by_cases hn : lo = n + 1
    · subst hn
      exact ⟨s, forLoop_zero _ body s, h0⟩
    · have hle' : lo ≤ n := by omega
      obtain ⟨t, ht, hI⟩ := ih hle' (fun k t h1 h2 h3 => hstep k t h1 (by omega) h3)
      obtain ⟨t', ht', hI'⟩ := hstep n t hle' (by omega) hI
      exact ⟨t', by rw [forLoop_snoc hle', ht]; exact ht', hI'⟩

/-- A loop that returns carries to its result every invariant `I` that its
passes carry from `k` to `k + 1`. -/
theorem forLoop_inv {σ : Type} (I : ℕ → σ → Prop) (body : σ → ℕ → Option σ) {lo hi : ℕ}
    (hle : lo ≤ hi) (s s' : σ) (h0 : I lo s)
    (hstep : ∀ k t t', lo ≤ k → k < hi → I k t → body t k = some t' → I (k + 1) t')
    (h : forLoop lo hi body s = some s') : I hi s' := by
  induction hi generalizing s' with
  | zero =>
    have : lo = 0 := by omega
    subst this
    rw [forLoop_zero] at h
    cases h
    exact h0
  | succ n ih =>
    by_cases hn : lo = n + 1
    · subst hn
      rw [forLoop_zero] at h
      cases h
      exact h0
    · have hle' : lo ≤ n := by omega
      rw [forLoop_snoc hle'] at h
      obtain ⟨t, ht, ht'⟩ := Option.bind_eq_some.mp h
      exact hstep n t s' hle' (by omega)
        (ih hle' t (fun k t t' h1 h2 h3 h4 => hstep k t t' h1 (by omega) h3 h4) ht) ht'

/-- A loop that returns carries to its result every property that its passes
preserve. -/
theorem forLoop_preserves {σ : Type} (P : σ → Prop) (body : σ → ℕ → Option σ) (lo hi : ℕ)
    (s s' : σ) (h0 : P s) (hstep : ∀ k t t', P t → body t k = some t' → P t')
    (h : forLoop lo hi body s = some s') : P s' := by
  by_cases hle : lo ≤ hi
  · exact forLoop_inv (fun _ t => P t) body hle s s' h0
      (fun k t t' _ _ h3 h4 => hstep k t t' h3 h4) h
  · rw [forLoop_of_le (by omega)] at h
    cases h
    exact h0

theorem store_eq_some {α : Type} {vec vec' : List α} {k : ℕ} {x : α}
    (h : store vec k x = some vec') : k < vec.length ∧ vec' = vec.set k x := by
  unfold store at h
  split at h
  · exact ⟨by assumption, (Option.some.inj h).symm⟩
  · cases h

theorem store_length {α : Type} {vec vec' : List α} {k : ℕ} {x : α}
    (h : store vec k x = some vec') : vec'.length = vec.length := by
  obtain ⟨-, rfl⟩ := store_eq_some h
  simp

/-! ### The CFL scan -/

theorem cflBound_congr (γ : ℚ) (sqrt : ℚ → ℚ) (s : Solver) (d : ℚ) (q : Vector4d) :
    cflBound γ sqrt { s with dt_ := d } q = cflBound γ sqrt s q := rfl

/-- One call of `cfl` replaces `dt_` by its minimum with the bound of the
point, and changes nothing else. -/
theorem cfl_eq_some {γ : ℚ} {sqrt : ℚ → ℚ} {s s' : Solver} {idx : ℕ}
    (h : cfl γ sqrt s idx = some s') :
    ∃ q, s.Q_[idx]? = some q ∧ s' = { s with dt_ := min s.dt_ (cflBound γ sqrt s q) } := by
  unfold cfl load at h
  obtain ⟨q, hq, h⟩ := Option.bind_eq_some.mp h
  refine ⟨q, hq, ?_⟩
  by_cases hlt : s.dt_ > cflBound γ sqrt s q
  · rw [if_pos hlt] at h
    rw [min_eq_right (le_of_lt hlt)]
    exact (Option.some.inj h).symm
  · rw [if_neg hlt] at h
    rw [min_eq_left (not_lt.mp hlt)]
    exact (Option.some.inj h).symm

/-- The CFL scan over the first `n` points leaves `dt_` equal to the minimum of
its old value and the bounds of these points, and changes nothing else. -/
theorem cfl_scan_spec {γ : ℚ} {sqrt : ℚ → ℚ} {s s' : Solver} (n : ℕ)
    (h : forLoop 0 n (cfl γ sqrt) s = some s') :
    n ≤ s.Q_.length ∧
    s' = { s with dt_ := ((s.Q_.take n).map (cflBound γ sqrt s)).foldl min s.dt_ } := by
  refine forLoop_inv
    (fun k t => k ≤ s.Q_.length ∧
      t = { s with dt_ := ((s.Q_.take k).map (cflBound γ sqrt s)).foldl min s.dt_ })
    (cfl γ sqrt) (Nat.zero_le n) s s' ⟨Nat.zero_le _, by simp⟩ ?_ h
  rintro k t t' - - ⟨hk, rfl⟩ ht
  obtain ⟨q, hq, rfl⟩ := cfl_eq_some ht
  have hk' : k < s.Q_.length := by
    by_contra hcon
    have : s.Q_[k]? = none := List.getElem?_eq_none (by omega)
    simp [this] at hq
  refine ⟨hk', ?_⟩
  have hq' : s.Q_[k]? = some q := hq
  simp [List.take_succ, hq', List.foldl_append, cflBound_congr]

theorem min_foldl_le (l : List ℚ) (d : ℚ) : l.foldl min d ≤ d := by
  induction l generalizing d with
  | nil => simp
  | cons x xs ih => exact le_trans (ih (min d x)) (min_le_left d x)

/-! ### One pass of the time loop -/

/-- The stages of a pass of the `while` loop that returns. -/
theorem LaxFriedrichsStep_eq_some {γ : ℚ} {sqrt : ℚ → ℚ} {st st' : Solver × List Vector4d}
    (h : LaxFriedrichsStep γ sqrt st = some st') :
    ∃ s1 Qt Q' s3 s5,
      forLoop 0 st.1.xy_.length (cfl γ sqrt) st.1 = some s1 ∧
      interiorUpdate s1 st.2 = some Qt ∧
      boundaries s1.stride_ s1.N_y Qt = some Q' ∧
      forLoop 0 s1.solution_.length (fluxPoint γ) { s1 with Q_ := Q' } = some s3 ∧
      forLoop 0 s3.Q_.length (varPoint γ) { s3 with time_ := s3.time_ + s3.dt_ } = some s5 ∧
      st' = (s5, Qt) := by
  simp only [LaxFriedrichsStep, Option.bind_eq_bind, Option.bind_eq_some, Option.pure_def,
    Option.some.injEq] at h
  obtain ⟨s1, h1, Qt, h2, Q', h3, s3, h4, s5, h5, h6⟩ := h
  exact ⟨s1, Qt, Q', s3, s5, h1, h2, h3, h4, h5, h6.symm⟩

theorem fluxPoint_eq_some {γ : ℚ} {s s' : Solver} {i : ℕ} (h : fluxPoint γ s i = some s') :
    ∃ q, s.Q_[i]? = some q ∧ i < s.F_.length ∧ i < s.G_.length ∧
      s' = { s with F_ := s.F_.set i (Q2F γ q), G_ := s.G_.set i (Q2G γ q) } := by
  simp only [fluxPoint, load, Option.bind_eq_bind, Option.bind_eq_some, Option.pure_def,
    Option.some.injEq] at h
  obtain ⟨q, hq, F, hF, q', hq', G, hG, rfl⟩ := h
  obtain ⟨hF1, rfl⟩ := store_eq_some hF
  obtain ⟨hG1, rfl⟩ := store_eq_some hG
  rw [hq] at hq'
  cases hq'
  exact ⟨q, hq, hF1, hG1, rfl⟩

theorem varPoint_eq_some {γ : ℚ} {s s' : Solver} {i : ℕ} (h : varPoint γ s i = some s') :
    ∃ q, s.Q_[i]? = some q ∧ i < s.solution_.length ∧
      s' = { s with solution_ := s.solution_.set i (Q2var γ q) } := by
  simp only [varPoint, load, Option.bind_eq_bind, Option.bind_eq_some, Option.pure_def,
    Option.some.injEq] at h
  obtain ⟨q, hq, sol, hsol, rfl⟩ := h
  obtain ⟨h1, rfl⟩ := store_eq_some hsol
  exact ⟨q, hq, h1, rfl⟩

/-- The loop over `fluxPoint` changes `F_` and `G_` only. -/
theorem flux_loop_frame {γ : ℚ} {s s' : Solver} {n : ℕ}
    (h : forLoop 0 n (fluxPoint γ) s = some s') :
    s'.time_ = s.time_ ∧ s'.dt_ = s.dt_ ∧ s'.Q_ = s.Q_ ∧ s'.xy_ = s.xy_ ∧
    s'.solution_ = s.solution_ ∧ s'.stride_ = s.stride_ ∧ s'.N_y = s.N_y ∧
    s'.F_.length = s.F_.length ∧ s'.G_.length = s.G_.length := by
  refine forLoop_preserves
    (fun t => t.time_ = s.time_ ∧ t.dt_ = s.dt_ ∧ t.Q_ = s.Q_ ∧ t.xy_ = s.xy_ ∧
      t.solution_ = s.solution_ ∧ t.stride_ = s.stride_ ∧ t.N_y = s.N_y ∧
      t.F_.length = s.F_.length ∧ t.G_.length = s.G_.length)
    (fluxPoint γ) 0 n s s' ⟨rfl, rfl, rfl, rfl, rfl, rfl, rfl, rfl, rfl⟩ ?_ h
  rintro k t t' ⟨a1, a2, a3, a4, a5, a6, a7, a8, a9⟩ ht
  obtain ⟨q, -, -, -, rfl⟩ := fluxPoint_eq_some ht
  exact ⟨a1, a2, a3, a4, a5, a6, a7, by simpa using a8, by simpa using a9⟩

/-- The loop over `varPoint` changes `solution_` only. -/
theorem var_loop_frame {γ : ℚ} {s s' : Solver} {n : ℕ}
    (h : forLoop 0 n (varPoint γ) s = some s') :
    s'.time_ = s.time_ ∧ s'.dt_ = s.dt_ ∧ s'.Q_ = s.Q_ ∧ s'.xy_ = s.xy_ ∧
    s'.F_ = s.F_ ∧ s'.G_ = s.G_ ∧ s'.stride_ = s.stride_ ∧ s'.N_y = s.N_y ∧
    s'.solution_.length = s.solution_.length := by
  refine forLoop_preserves
    (fun t => t.time_ = s.time_ ∧ t.dt_ = s.dt_ ∧ t.Q_ = s.Q_ ∧ t.xy_ = s.xy_ ∧
      t.F_ = s.F_ ∧ t.G_ = s.G_ ∧ t.stride_ = s.stride_ ∧ t.N_y = s.N_y ∧
      t.solution_.length = s.solution_.length)
    (varPoint γ) 0 n s s' ⟨rfl, rfl, rfl, rfl, rfl, rfl, rfl, rfl, rfl⟩ ?_ h
  rintro k t t' ⟨a1, a2, a3, a4, a5, a6, a7, a8, a9⟩ ht
  obtain ⟨q, -, -, rfl⟩ := varPoint_eq_some ht
  exact ⟨a1, a2, a3, a4, a5, a6, a7, a8, by simpa using a9⟩

/-- A pass of the `while` loop that returns leaves `dt_` as its CFL scan left it
and adds this `dt_` to `time_`. -/
theorem LaxFriedrichsStep_time {γ : ℚ} {sqrt : ℚ → ℚ} {st st' : Solver × List Vector4d}
    (h : LaxFriedrichsStep γ sqrt st = some st') :
    st'.1.dt_ = ((st.1.Q_.take st.1.xy_.length).map (cflBound γ sqrt st.1)).foldl min st.1.dt_ ∧
    st'.1.time_ = st.1.time_ + st'.1.dt_ := by
  obtain ⟨s1, Qt, Q', s3, s5, h1, -, -, h4, h5, rfl⟩ := LaxFriedrichsStep_eq_some h
  obtain ⟨-, rfl⟩ := cfl_scan_spec _ h1
  obtain ⟨b1, b2, -⟩ := flux_loop_frame h4
  obtain ⟨c1, c2, -⟩ := var_loop_frame h5
  simp only at b1 b2 c1 c2 ⊢
  rw [c1, c2, b1, b2]
  exact ⟨rfl, rfl⟩

/-! ### Runs on the 3 x 3 field at rest -/

theorem construct_rest33 :
    Solver.construct (7 / 5) mesh33 (List.replicate 9 ⟨1, 0, 0, 5 / 7⟩) 1 3 (1 / 2)
      = some rest33 := by decide!

theorem step_rest33 :
    LaxFriedrichsStep (7 / 5) sqrtUnit (rest33, rest33.Q_)
      = some ({ rest33 with dt_ := 1 / 4, time_ := 1 / 4 }, rest33.Q_) := by decide!

/-- C7. Monotone, min-based adaptive step: in a pass of the loop of
`LaxFriedrichs` the CFL scan returns with `dt_` equal to the minimum of its
value before and of `cour_ / ((|u| + a) / x_step_ + (|v| + a) / y_step_)` over
all points of the grid, this is the `dt_` at the end of the pass, and it is at
most the `dt_` before the pass. -/
theorem cfl_min_step (γ : ℚ) (sqrt : ℚ → ℚ) (st st' : Solver × List Vector4d)
    (h : LaxFriedrichsStep γ sqrt st = some st') :
    (∃ s1, forLoop 0 st.1.xy_.length (cfl γ sqrt) st.1 = some s1 ∧
      st.1.xy_.length ≤ st.1.Q_.length ∧
      s1.dt_ = ((st.1.Q_.take st.1.xy_.length).map (cflBound γ sqrt st.1)).foldl min st.1.dt_ ∧
      st'.1.dt_ = s1.dt_) ∧
    st'.1.dt_ ≤ st.1.dt_ := by
  obtain ⟨hdt, -⟩ := LaxFriedrichsStep_time h
  obtain ⟨s1, Qt, Q', s3, s5, h1, -⟩ := LaxFriedrichsStep_eq_some h
  obtain ⟨hn, hs1⟩ := cfl_scan_spec _ h1
  refine ⟨⟨s1, h1, hn, ?_, ?_⟩, ?_⟩
  · rw [hs1]
  · rw [hdt, hs1]
  · rw [hdt]
    exact min_foldl_le _ _

/-- Witness of C7: the first pass on `rest33` takes `dt_` from `1` to `1/4`. -/
theorem cfl_min_step_witness :
    LaxFriedrichsStep (7 / 5) sqrtUnit (rest33, rest33.Q_)
      = some ({ rest33 with dt_ := 1 / 4, time_ := 1 / 4 }, rest33.Q_) ∧
    (1 / 4 : ℚ) ≤ rest33.dt_ :=
  ⟨step_rest33, (cfl_min_step (7 / 5) sqrtUnit (rest33, rest33.Q_) _ step_rest33).2⟩

theorem LaxFriedrichsLoop_of_not_lt {γ : ℚ} {sqrt : ℚ → ℚ} {T_end : ℚ} (fuel : ℕ)
    {st : Solver × List Vector4d} (h : ¬ st.1.time_ < T_end) :
    LaxFriedrichsLoop γ sqrt T_end fuel st = some st := by
  cases fuel <;> simp [LaxFriedrichsLoop, h]

/-- The stages of a call of `LaxFriedrichs` that returns. -/
theorem LaxFriedrichs_eq_some {γ : ℚ} {sqrt : ℚ → ℚ} {fuel : ℕ} {T_end : ℚ} {s s' : Solver}
    (h : LaxFriedrichs γ sqrt fuel T_end s = some s') :
    ∃ st, LaxFriedrichsLoop γ sqrt T_end fuel (s, s.Q_) = some st ∧
      forLoop 0 st.1.xy_.length (varPoint γ) st.1 = some s' := by
  simp only [LaxFriedrichs, Option.bind_eq_bind, Option.bind_eq_some] at h
  exact h

/-- At an interior point of a grid that the arrays cover, the right-hand side of
the update reads inside the arrays. -/
theorem interiorValue_some {s : Solver} {i j : ℕ}
    (hQ : s.stride_ * s.N_y ≤ s.Q_.length) (hF : s.stride_ * s.N_y ≤ s.F_.length)
    (hG : s.stride_ * s.N_y ≤ s.G_.length)
    (hi1 : 1 ≤ i) (hi2 : i + 1 < s.stride_) (hj1 : 1 ≤ j) (hj2 : j + 1 < s.N_y) :
    ∃ qE qS qW qN fE fW gN gS,
      s.Q_[ij2k s.stride_ (i + 1) j]? = some qE ∧ s.Q_[ij2k s.stride_ i (j - 1)]? = some qS ∧
      s.Q_[ij2k s.stride_ (i - 1) j]? = some qW ∧ s.Q_[ij2k s.stride_ i (j + 1)]? = some qN ∧
      s.F_[ij2k s.stride_ (i + 1) j]? = some fE ∧ s.F_[ij2k s.stride_ (i - 1) j]? = some fW ∧
      s.G_[ij2k s.stride_ i (j + 1)]? = some gN ∧ s.G_[ij2k s.stride_ i (j - 1)]? = some gS ∧
      interiorValue s i j = some ((qE + qS + qW + qN) / (4 : ℚ)
        - ((fE - fW) / s.x_step_ + (gN - gS) / s.y_step_) * s.dt_ / (2 : ℚ)) := by
  have bE : ij2k s.stride_ (i + 1) j < s.stride_ * s.N_y := ij2k_lt hi2 (by omega)
  have bS : ij2k s.stride_ i (j - 1) < s.stride_ * s.N_y := ij2k_lt (by omega) (by omega)
  have bW : ij2k s.stride_ (i - 1) j < s.stride_ * s.N_y := ij2k_lt (by omega) (by omega)
  have bN : ij2k s.stride_ i (j + 1) < s.stride_ * s.N_y := ij2k_lt (by omega) hj2
  obtain ⟨qE, hqE⟩ := getElem?_some_of_lt (lt_of_lt_of_le bE hQ)
  obtain ⟨qS, hqS⟩ := getElem?_some_of_lt (lt_of_lt_of_le bS hQ)
  obtain ⟨qW, hqW⟩ := getElem?_some_of_lt (lt_of_lt_of_le bW hQ)
  obtain ⟨qN, hqN⟩ := getElem?_some_of_lt (lt_of_lt_of_le bN hQ)
  obtain ⟨fE, hfE⟩ := getElem?_some_of_lt (lt_of_lt_of_le bE hF)
  obtain ⟨fW, hfW⟩ := getElem?_some_of_lt (lt_of_lt_of_le bW hF)
  obtain ⟨gN, hgN⟩ := getElem?_some_of_lt (lt_of_lt_of_le bN hG)
  obtain ⟨gS, hgS⟩ := getElem?_some_of_lt (lt_of_lt_of_le bS hG)
  refine ⟨qE, qS, qW, qN, fE, fW, gN, gS, hqE, hqS, hqW, hqN, hfE, hfW, hgN, hgS, ?_⟩
  simp [interiorValue, load, hqE, hqS, hqW, hqN, hfE, hfW, hgN, hgS]

/-- The inner loop of the interior update, for an interior column `i`, writes the
right-hand side at the interior points of the column and nothing else. -/
theorem interior_column_spec {s : Solver} {Qt : List Vector4d} {i : ℕ}
    (hQ : s.stride_ * s.N_y ≤ s.Q_.length) (hF : s.stride_ * s.N_y ≤ s.F_.length)
    (hG : s.stride_ * s.N_y ≤ s.G_.length) (hT : s.stride_ * s.N_y ≤ Qt.length)
    (hi1 : 1 ≤ i) (hi2 : i + 1 < s.stride_) :
    ∃ Qt', forLoop 1 (s.N_y - 1) (fun Q_tmp j => interiorPoint s Q_tmp i j) Qt = some Qt' ∧
      Qt'.length = Qt.length ∧
      ∀ a b, a < s.stride_ → Qt'[ij2k s.stride_ a b]? =
        if a = i ∧ 1 ≤ b ∧ b < s.N_y - 1 then interiorValue s i b
        else Qt[ij2k s.stride_ a b]? := by
  by_cases hM : 1 ≤ s.N_y - 1
  · refine forLoop_total
      (fun k t => t.length = Qt.length ∧
        ∀ a b, a < s.stride_ → t[ij2k s.stride_ a b]? =
          if a = i ∧ 1 ≤ b ∧ b < k then interiorValue s i b else Qt[ij2k s.stride_ a b]?)
      _ hM Qt ⟨rfl, fun a b _ => by
        have : ¬ (a = i ∧ 1 ≤ b ∧ b < 1) := by omega
        rw [if_neg this]⟩ ?_
    rintro k t hk1 hk2 ⟨hlen, hcell⟩
    obtain ⟨qE, qS, qW, qN, fE, fW, gN, gS, -, -, -, -, -, -, -, -, hv⟩ :=
      interiorValue_some hQ hF hG hi1 hi2 hk1 (by omega : k + 1 < s.N_y)
    have hi : i < s.stride_ := by omega
    have hb : ij2k s.stride_ i k < t.length := by
      rw [hlen]
      exact lt_of_lt_of_le (ij2k_lt hi (by omega : k < s.N_y)) hT
    refine ⟨_, by simp [interiorPoint, hv, store, hb]; rfl, by simpa using hlen, ?_⟩
    intro a b ha
    simp only [List.getElem?_set, ij2k_eq_iff hi ha, hcell a b ha]
    by_cases hab : a = i ∧ b = k
    · obtain ⟨rfl, rfl⟩ := hab
      simp [hb, hk1, hv]
    · have h1 : ¬ (i = a ∧ k = b) := by omega
      rw [if_neg h1]
      by_cases hc : a = i ∧ 1 ≤ b ∧ b < k
      · have hc' : a = i ∧ 1 ≤ b ∧ b < k + 1 := by omega
        rw [if_pos hc, if_pos hc']
      · have hc' : ¬ (a = i ∧ 1 ≤ b ∧ b < k + 1) := by omega
        rw [if_neg hc, if_neg hc']
  · refine ⟨Qt, forLoop_of_le (by omega) _ _, rfl, fun a b _ => ?_⟩
    have : ¬ (a = i ∧ 1 ≤ b ∧ b < s.N_y - 1) := by omega
    rw [if_neg this]

/-- The interior update returns on a grid that the arrays cover; it writes the
right-hand side, read from `Q_`, `F_`, `G_`, at every interior point and leaves
every other point of `Q_tmp` as it was. -/
theorem interiorUpdate_spec {s : Solver} {Qt : List Vector4d}
    (hQ : s.stride_ * s.N_y ≤ s.Q_.length) (hF : s.stride_ * s.N_y ≤ s.F_.length)
    (hG : s.stride_ * s.N_y ≤ s.G_.length) (hT : s.stride_ * s.N_y ≤ Qt.length) :
    ∃ Qt', interiorUpdate s Qt = some Qt' ∧ Qt'.length = Qt.length ∧
      ∀ a b, a < s.stride_ → Qt'[ij2k s.stride_ a b]? =
        if (1 ≤ a ∧ a < s.stride_ - 1) ∧ 1 ≤ b ∧ b < s.N_y - 1 then interiorValue s a b
        else Qt[ij2k s.stride_ a b]? := by
  unfold interiorUpdate
  by_cases hN : 1 ≤ s.stride_ - 1
  · refine forLoop_total
      (fun k t => t.length = Qt.length ∧
        ∀ a b, a < s.stride_ → t[ij2k s.stride_ a b]? =
          if (1 ≤ a ∧ a < k) ∧ 1 ≤ b ∧ b < s.N_y - 1 then interiorValue s a b
          else Qt[ij2k s.stride_ a b]?)
      _ hN Qt ⟨rfl, fun a b _ => by
        have : ¬ ((1 ≤ a ∧ a < 1) ∧ 1 ≤ b ∧ b < s.N_y - 1) := by omega
        rw [if_neg this]⟩ ?_
    rintro k t hk1 hk2 ⟨hlen, hcell⟩
    obtain ⟨t', ht', hlen', hcell'⟩ :=
      @interior_column_spec s t k hQ hF hG (by omega) hk1 (by omega : k + 1 < s.stride_)
    refine ⟨t', ht', by omega, ?_⟩
    intro a b ha
    rw [hcell' a b ha, hcell a b ha]
    by_cases hak : a = k
    · subst hak
      by_cases hb : 1 ≤ b ∧ b < s.N_y - 1
      · have c1 : a = a ∧ 1 ≤ b ∧ b < s.N_y - 1 := ⟨rfl, hb⟩
        have c2 : (1 ≤ a ∧ a < a + 1) ∧ 1 ≤ b ∧ b < s.N_y - 1 := ⟨⟨hk1, by omega⟩, hb⟩
        rw [if_pos c1, if_pos c2]
      · have c1 : ¬ (a = a ∧ 1 ≤ b ∧ b < s.N_y - 1) := fun h => hb h.2
        have c2 : ¬ ((1 ≤ a ∧ a < a + 1) ∧ 1 ≤ b ∧ b < s.N_y - 1) := fun h => hb h.2
        have c3 : ¬ ((1 ≤ a ∧ a < a) ∧ 1 ≤ b ∧ b < s.N_y - 1) := by omega
        rw [if_neg c1, if_neg c2, if_neg c3]
    · have c1 : ¬ (a = k ∧ 1 ≤ b ∧ b < s.N_y - 1) := fun h => hak h.1
      rw [if_neg c1]
      by_cases hc : (1 ≤ a ∧ a < k) ∧ 1 ≤ b ∧ b < s.N_y - 1
      · have hc' : (1 ≤ a ∧ a < k + 1) ∧ 1 ≤ b ∧ b < s.N_y - 1 := by omega
        rw [if_pos hc, if_pos hc']
      · have hc' : ¬ ((1 ≤ a ∧ a < k + 1) ∧ 1 ≤ b ∧ b < s.N_y - 1) := by omega
        rw [if_neg hc, if_neg hc']
  · refine ⟨Qt, forLoop_of_le (by omega) _ _, rfl, fun a b _ => ?_⟩
    have : ¬ ((1 ≤ a ∧ a < s.stride_ - 1) ∧ 1 ≤ b ∧ b < s.N_y - 1) := by omega
    rw [if_neg this]

/-- With equal neighbours and equal fluxes the right-hand side of the update is
the common state. -/
theorem uniform_rhs (q f g : Vector4d) (dx dy dt : ℚ) :
    (q + q + q + q) / (4 : ℚ) - ((f - f) / dx + (g - g) / dy) * dt / (2 : ℚ) = q := by
  obtain ⟨q0, q1, q2, q3⟩ := q
  obtain ⟨f0, f1, f2, f3⟩ := f
  obtain ⟨g0, g1, g2, g3⟩ := g
  show Vector4d.sub (Vector4d.sdiv (Vector4d.add (Vector4d.add (Vector4d.add _ _) _) _) 4)
    (Vector4d.sdiv (Vector4d.smul (Vector4d.add (Vector4d.sdiv (Vector4d.sub _ _) dx)
      (Vector4d.sdiv (Vector4d.sub _ _) dy)) dt) 2) = _
  simp only [Vector4d.add, Vector4d.sub, Vector4d.sdiv, Vector4d.smul, Vector4d.mk.injEq,
    sub_self, zero_div, add_zero, zero_mul, sub_zero]
  refine ⟨?_, ?_, ?_, ?_⟩ <;> ring

/-- C8. Conservation on a uniform field: if `Q_` holds the same state `q` at
every point of the grid and `F_`, `G_` hold the fluxes `Q2F q`, `Q2G q` derived
from it, then for any `dt_`, `x_step_`, `y_step_` the interior update returns and
the value it stores at every interior point (column `1..N_x-2`, row `1..N_y-2`)
is `q`. -/
theorem interior_uniform (γ : ℚ) (s : Solver) (Q_tmp : List Vector4d) (q : Vector4d)
    (hQ : s.Q_ = List.replicate (s.stride_ * s.N_y) q)
    (hF : s.F_ = List.replicate (s.stride_ * s.N_y) (Q2F γ q))
    (hG : s.G_ = List.replicate (s.stride_ * s.N_y) (Q2G γ q))
    (hT : Q_tmp.length = s.stride_ * s.N_y) :
    ∃ Qt', interiorUpdate s Q_tmp = some Qt' ∧
      ∀ i j, 1 ≤ i → i ≤ s.stride_ - 2 → 1 ≤ j → j ≤ s.N_y - 2 →
        Qt'[ij2k s.stride_ i j]? = some q := by
  have lQ : s.stride_ * s.N_y ≤ s.Q_.length := by rw [hQ]; simp
  have lF : s.stride_ * s.N_y ≤ s.F_.length := by rw [hF]; simp
  have lG : s.stride_ * s.N_y ≤ s.G_.length := by rw [hG]; simp
  obtain ⟨Qt', h, -, hcell⟩ := @interiorUpdate_spec s Q_tmp lQ lF lG (le_of_eq hT.symm)
  refine ⟨Qt', h, ?_⟩
  intro i j hi1 hi2 hj1 hj2
  have hc : (1 ≤ i ∧ i < s.stride_ - 1) ∧ 1 ≤ j ∧ j < s.N_y - 1 := by omega
  rw [hcell i j (by omega), if_pos hc]
  obtain ⟨qE, qS, qW, qN, fE, fW, gN, gS, hqE, hqS, hqW, hqN, hfE, hfW, hgN, hgS, hv⟩ :=
    interiorValue_some lQ lF lG hi1 (by omega : i + 1 < s.stride_) hj1 (by omega : j + 1 < s.N_y)
  rw [hQ, replicate_cell _ (by omega) (by omega)] at hqE hqS hqW hqN
  rw [hF, replicate_cell _ (by omega) (by omega)] at hfE hfW
  rw [hG, replicate_cell _ (by omega) (by omega)] at hgN hgS
  cases hqE; cases hqS; cases hqW; cases hqN
  cases hfE; cases hfW; cases hgN; cases hgS
  rw [hv, uniform_rhs]

/-- Witness of C8 on the 3 x 3 field at rest `rest33`. -/
theorem interior_uniform_witness :
    ∃ Qt', interiorUpdate rest33 rest33.Q_ = some Qt' ∧
      ∀ i j, 1 ≤ i → i ≤ rest33.stride_ - 2 → 1 ≤ j → j ≤ rest33.N_y - 2 →
        Qt'[ij2k rest33.stride_ i j]? = some ⟨1, 0, 0, 25 / 14⟩ :=
  interior_uniform (7 / 5) rest33 rest33.Q_ ⟨1, 0, 0, 25 / 14⟩ (by decide!) (by decide!)
    (by decide!) (by decide!)

/-! ### Consistency of the arrays -/

theorem getElem?_set_of_lt {α : Type} {l : List α} {k m : ℕ} {a : α} (hk : k < l.length) :
    (l.set k a)[m]? = if m = k then some a else l[m]? := by
  rw [List.getElem?_set]
  by_cases h : k = m
  · subst h
    simp [hk]
  · have h' : ¬ m = k := fun e => h e.symm
    rw [if_neg h, if_neg h']

/-- The loop over `varPoint` up to `n` leaves `Q2var` of `Q_` in `solution_` at
every index below `n`. -/
theorem var_loop_spec {γ : ℚ} {s s' : Solver} {n : ℕ}
    (h : forLoop 0 n (varPoint γ) s = some s') :
    ∀ m, m < n → s'.solution_[m]? = s.Q_[m]?.map (Q2var γ) := by
  refine (forLoop_inv
    (fun k t => t.Q_ = s.Q_ ∧ ∀ m, m < k → t.solution_[m]? = s.Q_[m]?.map (Q2var γ))
    (varPoint γ) (Nat.zero_le n) s s' ⟨rfl, fun m hm => absurd hm (Nat.not_lt_zero m)⟩ ?_ h).2
  rintro k t t' - - ⟨hQ, hsol⟩ ht
  obtain ⟨q, hq, hk, rfl⟩ := varPoint_eq_some ht
  refine ⟨hQ, fun m hm => ?_⟩
  simp only [getElem?_set_of_lt hk]
  by_cases hmk : m = k
  · subst hmk
    rw [if_pos rfl, ← hQ, hq]
    rfl
  · rw [if_neg hmk]
    exact hsol m (by omega)

/-- The loop over `fluxPoint` up to `n` leaves `Q2F` and `Q2G` of `Q_` in `F_`
and `G_` at every index below `n`. -/
theorem flux_loop_spec {γ : ℚ} {s s' : Solver} {n : ℕ}
    (h : forLoop 0 n (fluxPoint γ) s = some s') :
    ∀ m, m < n → s'.F_[m]? = s.Q_[m]?.map (Q2F γ) ∧ s'.G_[m]? = s.Q_[m]?.map (Q2G γ) := by
  refine (forLoop_inv
    (fun k t => t.Q_ = s.Q_ ∧
      ∀ m, m < k → t.F_[m]? = s.Q_[m]?.map (Q2F γ) ∧ t.G_[m]? = s.Q_[m]?.map (Q2G γ))
    (fluxPoint γ) (Nat.zero_le n) s s' ⟨rfl, fun m hm => absurd hm (Nat.not_lt_zero m)⟩ ?_ h).2
  rintro k t t' - - ⟨hQ, hFG⟩ ht
  obtain ⟨q, hq, hkF, hkG, rfl⟩ := fluxPoint_eq_some ht
  refine ⟨hQ, fun m hm => ?_⟩
  simp only [getElem?_set_of_lt hkF, getElem?_set_of_lt hkG]
  by_cases hmk : m = k
  · subst hmk
    rw [if_pos rfl, if_pos rfl, ← hQ, hq]
    exact ⟨rfl, rfl⟩
  · rw [if_neg hmk, if_neg hmk]
    exact hFG m (by omega)

theorem boundariesRows_length {N M i : ℕ} {Q Q' : List Vector4d}
    (h : boundariesRows N M Q i = some Q') : Q'.length = Q.length := by
  simp only [boundariesRows, Option.bind_eq_bind, Option.bind_eq_some] at h
  obtain ⟨a, -, Q1, h1, b, -, Q2, h2, c, -, Q3, h3, d, -, h4⟩ := h
  rw [store_length h4, store_length h3, store_length h2, store_length h1]

theorem boundariesCols_length {N M j : ℕ} {Q Q' : List Vector4d}
    (h : boundariesCols N M Q j = some Q') : Q'.length = Q.length := by
  simp only [boundariesCols, Option.bind_eq_bind, Option.bind_eq_some] at h
  obtain ⟨a, -, Q1, h1, b, -, Q2, h2, c, -, Q3, h3, d, -, h4⟩ := h
  rw [store_length h4, store_length h3, store_length h2, store_length h1]

/-- A call of `boundaries` that returns keeps the length of `Q_`. -/
theorem boundaries_length {N M : ℕ} {Q Q' : List Vector4d}
    (h : boundaries N M Q = some Q') : Q'.length = Q.length := by
  simp only [boundaries, Option.bind_eq_bind, Option.bind_eq_some] at h
  obtain ⟨Q1, h1, h2⟩ := h
  have e1 : Q1.length = Q.length :=
    forLoop_preserves (fun t => t.length = Q.length) _ 0 N Q Q1 rfl
      (fun k t t' ht hb => (boundariesRows_length hb).trans ht) h1
  exact forLoop_preserves (fun t => t.length = Q.length) _ 0 M Q1 Q' e1
    (fun k t t' ht hb => (boundariesCols_length hb).trans ht) h2

/-- An interior update that returns keeps the length of `Q_tmp`. -/
theorem interiorUpdate_length {s : Solver} {Qt Qt' : List Vector4d}
    (h : interiorUpdate s Qt = some Qt') : Qt'.length = Qt.length := by
  refine forLoop_preserves (fun t => t.length = Qt.length) _ 1 (s.stride_ - 1) Qt Qt' rfl ?_ h
  intro i t t' ht hb
  refine forLoop_preserves (fun u => u.length = Qt.length) _ 1 (s.N_y - 1) t t' ht ?_ hb
  intro j u u' hu hp
  simp only [interiorPoint, Option.bind_eq_bind, Option.bind_eq_some] at hp
  obtain ⟨x, -, hst⟩ := hp
  exact (store_length hst).trans hu

/-- A pass of the `while` loop that returns, made on arrays of the length of the
mesh, ends in a consistent state and keeps the length of `Q_tmp`. -/
theorem LaxFriedrichsStep_consistent {γ : ℚ} {sqrt : ℚ → ℚ} {st st' : Solver × List Vector4d}
    (hF : st.1.F_.length = st.1.xy_.length) (hG : st.1.G_.length = st.1.xy_.length)
    (hS : st.1.solution_.length = st.1.xy_.length) (hT : st.2.length = st.1.xy_.length)
    (h : LaxFriedrichsStep γ sqrt st = some st') :
    Consistent γ st'.1 ∧ st'.2.length = st'.1.xy_.length ∧ st'.1.xy_ = st.1.xy_ := by
  obtain ⟨s1, Qt, Q', s3, s5, h1, h2, h3, h4, h5, rfl⟩ := LaxFriedrichsStep_eq_some h
  obtain ⟨-, rfl⟩ := cfl_scan_spec _ h1
  have lQt := interiorUpdate_length h2
  have lQ' := boundaries_length h3
  obtain ⟨-, -, b3, b4, b5, -, -, b8, b9⟩ := flux_loop_frame h4
  obtain ⟨-, -, c3, c4, c5, c6, -, -, c9⟩ := var_loop_frame h5
  have hflux := flux_loop_spec h4
  have hvar := var_loop_spec h5
  simp only at lQt lQ' b3 b4 b5 b8 b9 c3 c4 c5 c6 c9 hflux hvar h5 ⊢
  have lQ : s5.Q_.length = st.1.xy_.length := by rw [c3, b3, lQ', lQt, hT]
  refine ⟨⟨?_, ?_, ?_, ?_, ?_⟩, ?_, ?_⟩
  · rw [c4, b4]; exact lQ
  · rw [c4, b4, c5, b8]; exact hF
  · rw [c4, b4, c6, b9]; exact hG
  · rw [c4, b4, c9, b5]; exact hS
  · intro k hk
    rw [c4, b4] at hk
    rw [c5, c6, c3, b3]
    obtain ⟨e1, e2⟩ := hflux k (by rw [hS]; exact hk)
    refine ⟨e1, e2, ?_⟩
    rw [hvar k (by rw [b3, lQ', lQt, hT]; exact hk), b3]
  · rw [c4, b4, lQt, hT]
  · rw [c4, b4]

theorem Q2var_var2Q_of_ne_zero {γ : ℚ} (hγ : γ ≠ 1) {x : RUVP} (hr : x.r ≠ 0) :
    Q2var γ (var2Q γ x) = x := by
  obtain ⟨r, u, v, p⟩ := x
  have hr0 : r ≠ 0 := hr
  have hg : γ - 1 ≠ 0 := sub_ne_zero.mpr hγ
  simp only [Q2var, var2Q, RUVP.mk.injEq]
  refine ⟨trivial, by field_simp, by field_simp, ?_⟩
  field_simp
  ring

theorem initPoint_eq_some {γ : ℚ} {s s' : Solver} {i : ℕ} (h : initPoint γ s i = some s') :
    ∃ x, s.solution_[i]? = some x ∧ i < s.Q_.length ∧ i < s.F_.length ∧ i < s.G_.length ∧
      s' = { s with Q_ := s.Q_.set i (var2Q γ x), F_ := s.F_.set i (Q2F γ (var2Q γ x)),
                    G_ := s.G_.set i (Q2G γ (var2Q γ x)) } := by
  simp only [initPoint, load, Option.bind_eq_bind, Option.bind_eq_some, Option.pure_def,
    Option.some.injEq] at h
  obtain ⟨x, hx, Q, hQ, q, hq, F, hF, q', hq', G, hG, rfl⟩ := h
  obtain ⟨hQ1, rfl⟩ := store_eq_some hQ
  obtain ⟨hF1, rfl⟩ := store_eq_some hF
  obtain ⟨hG1, rfl⟩ := store_eq_some hG
  rw [getElem?_set_of_lt hQ1, if_pos rfl] at hq hq'
  cases hq
  cases hq'
  exact ⟨x, hx, hQ1, hF1, hG1, rfl⟩

/-- The loop of the constructor up to `n` keeps everything but `Q_`, `F_`, `G_`,
keeps their lengths, and leaves at every index below `n` the conservative state of
the initial primitive state and its two fluxes. -/
theorem init_loop_spec {γ : ℚ} {s s' : Solver} {n : ℕ}
    (h : forLoop 0 n (initPoint γ) s = some s') :
    (s'.xy_ = s.xy_ ∧ s'.solution_ = s.solution_ ∧ s'.Q_.length = s.Q_.length ∧
      s'.F_.length = s.F_.length ∧ s'.G_.length = s.G_.length) ∧
    ∀ m, m < n → s'.Q_[m]? = s.solution_[m]?.map (var2Q γ) ∧
      s'.F_[m]? = s'.Q_[m]?.map (Q2F γ) ∧ s'.G_[m]? = s'.Q_[m]?.map (Q2G γ) := by
  refine forLoop_inv
    (fun k t => (t.xy_ = s.xy_ ∧ t.solution_ = s.solution_ ∧ t.Q_.length = s.Q_.length ∧
        t.F_.length = s.F_.length ∧ t.G_.length = s.G_.length) ∧
      ∀ m, m < k → t.Q_[m]? = s.solution_[m]?.map (var2Q γ) ∧
        t.F_[m]? = t.Q_[m]?.map (Q2F γ) ∧ t.G_[m]? = t.Q_[m]?.map (Q2G γ))
    (initPoint γ) (Nat.zero_le n) s s'
    ⟨⟨rfl, rfl, rfl, rfl, rfl⟩, fun m hm => absurd hm (Nat.not_lt_zero m)⟩ ?_ h
  rintro k t t' - - ⟨⟨a1, a2, a3, a4, a5⟩, hcell⟩ ht
  obtain ⟨x, hx, hkQ, hkF, hkG, rfl⟩ := initPoint_eq_some ht
  refine ⟨⟨a1, a2, by simpa using a3, by simpa using a4, by simpa using a5⟩, fun m hm => ?_⟩
  simp only [getElem?_set_of_lt hkQ, getElem?_set_of_lt hkF, getElem?_set_of_lt hkG]
  by_cases hmk : m = k
  · subst hmk
    rw [if_pos rfl, if_pos rfl, if_pos rfl, ← a2, hx]
    exact ⟨rfl, rfl, rfl⟩
  · rw [if_neg hmk, if_neg hmk, if_neg hmk]
    exact hcell m (by omega)

/-- The stages of a construction that returns. -/
theorem construct_eq_some {γ : ℚ} {mesh : List (ℚ × ℚ)} {init_solution : List RUVP} {dt : ℚ}
    {N_x : ℕ} {courant : ℚ} {s : Solver}
    (h : Solver.construct γ mesh init_solution dt N_x courant = some s) :
    N_x ≠ 0 ∧ ∃ s1 x1 x0 y1,
      forLoop 0 mesh.length (initPoint γ)
        { xy_ := mesh, solution_ := init_solution, dt_ := dt, stride_ := N_x
          N_y := mesh.length / N_x, time_ := 0
          Q_ := List.replicate mesh.length default
          F_ := List.replicate mesh.length default
          G_ := List.replicate mesh.length default
          x_step_ := 0, y_step_ := 0, cour_ := 0 } = some s1 ∧
      s1.xy_[1]? = some x1 ∧ s1.xy_[0]? = some x0 ∧ s1.xy_[ij2k s1.stride_ 0 1]? = some y1 ∧
      s = { s1 with x_step_ := x1.1 - x0.1, y_step_ := y1.2 - x0.2, cour_ := courant } := by
  unfold Solver.construct at h
  by_cases hN : N_x = 0
  · simp [hN] at h
  · simp only [hN, if_false, load, Option.bind_eq_bind, Option.bind_eq_some, Option.pure_def,
      Option.some.injEq] at h
    obtain ⟨-, -, s1, h1, x1, hx1, x0, hx0, y1, hy1, y0, hy0, rfl⟩ := h
    rw [hx0] at hy0
    cases hy0
    exact ⟨hN, s1, x1, x0, y1, h1, hx1, hx0, hy1, rfl⟩

/-- The state left by the constructor is consistent when the initial field has
the length of the mesh and no zero density. -/
theorem construct_consistent {γ : ℚ} (hγ : γ ≠ 1) {mesh : List (ℚ × ℚ)}
    {init_solution : List RUVP} {dt : ℚ} {N_x : ℕ} {courant : ℚ} {s : Solver}
    (hlen : init_solution.length = mesh.length) (hr : ∀ x ∈ init_solution, x.r ≠ 0)
    (h : Solver.construct γ mesh init_solution dt N_x courant = some s) :
    Consistent γ s ∧ s.xy_ = mesh := by
  obtain ⟨-, s1, x1, x0, y1, h1, -, -, -, rfl⟩ := construct_eq_some h
  obtain ⟨⟨a1, a2, a3, a4, a5⟩, hcell⟩ := init_loop_spec h1
  simp only [List.length_replicate] at a1 a2 a3 a4 a5 hcell
  refine ⟨⟨?_, ?_, ?_, ?_, ?_⟩, a1⟩
  · simp only [a1]; exact a3
  · simp only [a1]; exact a4
  · simp only [a1]; exact a5
  · simp only [a1, a2]; exact hlen
  · intro k hk
    simp only [a1] at hk
    obtain ⟨e1, e2, e3⟩ := hcell k hk
    refine ⟨e2, e3, ?_⟩
    simp only [a2, e1]
    obtain ⟨x, hx⟩ := getElem?_some_of_lt (by rw [hlen]; exact hk : k < init_solution.length)
    rw [hx]
    simp only [Option.map_some', Option.some.injEq]
    exact (Q2var_var2Q_of_ne_zero hγ (hr x (List.getElem?_mem hx))).symm

/-- The final loop of `LaxFriedrichs` (lines 119-121) keeps a consistent state
consistent. -/
theorem var_loop_consistent {γ : ℚ} {s s' : Solver} (hs : Consistent γ s)
    (h : forLoop 0 s.xy_.length (varPoint γ) s = some s') : Consistent γ s' := by
  obtain ⟨l1, l2, l3, l4, hcell⟩ := hs
  obtain ⟨-, -, c3, c4, c5, c6, -, -, c9⟩ := var_loop_frame h
  have hvar := var_loop_spec h
  refine ⟨by rw [c3, c4]; exact l1, by rw [c5, c4]; exact l2, by rw [c6, c4]; exact l3,
    by rw [c9, c4]; exact l4, fun k hk => ?_⟩
  rw [c4] at hk
  rw [c3, c5, c6]
  exact ⟨(hcell k hk).1, (hcell k hk).2.1, hvar k hk⟩

/-- The `while` loop keeps the invariant: a consistent state and a `Q_tmp` of the
length of the mesh; it keeps the mesh. -/
theorem LaxFriedrichsLoop_consistent {γ : ℚ} {sqrt : ℚ → ℚ} {T_end : ℚ} (fuel : ℕ)
    (st st' : Solver × List Vector4d) (hs : Consistent γ st.1)
    (hT : st.2.length = st.1.xy_.length)
    (h : LaxFriedrichsLoop γ sqrt T_end fuel st = some st') :
    Consistent γ st'.1 ∧ st'.2.length = st'.1.xy_.length ∧ st'.1.xy_ = st.1.xy_ := by
  induction fuel generalizing st with
  | zero =>
    by_cases hc : st.1.time_ < T_end
    · simp [LaxFriedrichsLoop, hc] at h
    · rw [LaxFriedrichsLoop_of_not_lt 0 hc] at h
      cases h
      exact ⟨hs, hT, rfl⟩
  | succ n ih =>
    by_cases hc : st.1.time_ < T_end
    · simp only [LaxFriedrichsLoop, hc, if_true] at h
      obtain ⟨st1, h1, h2⟩ := Option.bind_eq_some.mp h
      obtain ⟨e1, e2, e3⟩ := LaxFriedrichsStep_consistent hs.2.1 hs.2.2.1 hs.2.2.2.1 hT h1
      obtain ⟨f1, f2, f3⟩ := ih st1 e1 e2 h2
      exact ⟨f1, f2, f3.trans e3⟩
    · rw [LaxFriedrichsLoop_of_not_lt _ hc] at h
      cases h
      exact ⟨hs, hT, rfl⟩

/-- After any number of passes of the `while` loop, begun in a consistent state
with `Q_tmp` the copy of `Q_`, the state is consistent, on the same mesh. -/
theorem iterate_consistent {γ : ℚ} {sqrt : ℚ → ℚ} {s : Solver} (hs : Consistent γ s) (n : ℕ)
    (st : Solver × List Vector4d)
    (h : (fun o => Option.bind o (LaxFriedrichsStep γ sqrt))^[n] (some (s, s.Q_)) = some st) :
    Consistent γ st.1 ∧ st.2.length = st.1.xy_.length ∧ st.1.xy_ = s.xy_ := by
  induction n generalizing st with
  | zero =>
    simp only [Function.iterate_zero, id_eq, Option.some.injEq] at h
    subst h
    exact ⟨hs, hs.1, rfl⟩
  | succ n ih =>
    rw [Function.iterate_succ_apply'] at h
    obtain ⟨st1, h1, h2⟩ := Option.bind_eq_some.mp h
    obtain ⟨e1, e2, e3⟩ := ih st1 h1
    obtain ⟨f1, f2, f3⟩ := LaxFriedrichsStep_consistent e1.2.1 e1.2.2.1 e1.2.2.2.1 e2 h2
    exact ⟨f1, f2, f3.trans e3⟩

/-! ### Claim on the consistency invariant -/

/-- C10. Consistency invariant: for a mesh and an initial field of equal length
with every density nonzero (and `γ ≠ 1`), the state left by the constructor, the
state after every completed pass of the loop of `LaxFriedrichs` and the state on
return from `LaxFriedrichs` are consistent: `Q_`, `F_`, `G_`, `solution_` have
the length of the mesh and at every index `k`, `F_[k] = Q2F(Q_[k])`,
`G_[k] = Q2G(Q_[k])`, `solution_[k] = Q2var(Q_[k])`. -/
theorem consistency (γ : ℚ) (sqrt : ℚ → ℚ) (mesh : List (ℚ × ℚ)) (init_solution : List RUVP)
    (dt : ℚ) (N_x : ℕ) (courant : ℚ) (s0 : Solver) (hγ : γ ≠ 1)
    (hlen : init_solution.length = mesh.length) (hr : ∀ x ∈ init_solution, x.r ≠ 0)
    (h0 : Solver.construct γ mesh init_solution dt N_x courant = some s0) :
    (Consistent γ s0 ∧ s0.xy_ = mesh) ∧
    (∀ n st, (fun o => Option.bind o (LaxFriedrichsStep γ sqrt))^[n] (some (s0, s0.Q_)) = some st →
      Consistent γ st.1 ∧ st.1.xy_ = mesh) ∧
    (∀ fuel T_end s, LaxFriedrichs γ sqrt fuel T_end s0 = some s →
      Consistent γ s ∧ s.xy_ = mesh) ∧
    (∀ s Q_tmp st, Consistent γ s → Q_tmp.length = s.xy_.length →
      LaxFriedrichsStep γ sqrt (s, Q_tmp) = some st →
      Consistent γ st.1 ∧ st.2.length = st.1.xy_.length) ∧
    (∀ fuel T_end s s', Consistent γ s → LaxFriedrichs γ sqrt fuel T_end s = some s' →
      Consistent γ s') := by
  have hc0 := construct_consistent hγ hlen hr h0
  have hrun : ∀ fuel T_end s s', Consistent γ s → LaxFriedrichs γ sqrt fuel T_end s = some s' →
      Consistent γ s' ∧ s'.xy_ = s.xy_ := by
    intro fuel T_end s s' hs h
    obtain ⟨st, h1, h2⟩ := LaxFriedrichs_eq_some h
    obtain ⟨e1, -, e3⟩ := LaxFriedrichsLoop_consistent fuel _ _ hs hs.1 h1
    refine ⟨var_loop_consistent e1 h2, ?_⟩
    rw [(var_loop_frame h2).2.2.2.1]
    exact e3
  refine ⟨hc0, ?_, ?_, ?_, ?_⟩
  · intro n st h
    obtain ⟨e1, -, e3⟩ := iterate_consistent hc0.1 n st h
    exact ⟨e1, e3.trans hc0.2⟩
  · intro fuel T_end s h
    obtain ⟨e1, e2⟩ := hrun fuel T_end s0 s hc0.1 h
    exact ⟨e1, e2.trans hc0.2⟩
  · intro s Q_tmp st hs hT h
    obtain ⟨e1, e2, -⟩ := @LaxFriedrichsStep_consistent γ sqrt (s, Q_tmp) st hs.2.1 hs.2.2.1
      hs.2.2.2.1 hT h
    exact ⟨e1, e2⟩
  · intro fuel T_end s s' hs h
    exact (hrun fuel T_end s s' hs h).1

/-- Witness of C10: the solver `rest33`, built by the constructor on `mesh33`
from the field at rest, is consistent. -/
theorem consistency_witness :
    (7 / 5 : ℚ) ≠ 1 ∧
    Solver.construct (7 / 5) mesh33 (List.replicate 9 ⟨1, 0, 0, 5 / 7⟩) 1 3 (1 / 2)
      = some rest33 ∧
    Consistent (7 / 5) rest33 ∧ rest33.xy_ = mesh33 :=
  ⟨by norm_num, construct_rest33,
    (consistency (7 / 5) sqrtUnit mesh33 (List.replicate 9 ⟨1, 0, 0, 5 / 7⟩) 1 3 (1 / 2) rest33
      (by norm_num) (by decide) (by decide!) construct_rest33).1⟩

/-! ### Claim on the reverse round trip -/

/-- C20. Reverse round trip conservative -> primitive -> conservative: for a
conservative vector `Q` with `Q[0] ≠ 0` and `γ ≠ 1`, `var2Q (Q2var Q) = Q`. -/
theorem var2Q_Q2var (γ : ℚ) (Q : Vector4d) (h0 : Q.c0 ≠ 0) (hγ : γ ≠ 1) :
    var2Q γ (Q2var γ Q) = Q := by
  obtain ⟨q0, q1, q2, q3⟩ := Q
  have h0' : q0 ≠ 0 := h0
  have hg : γ - 1 ≠ 0 := sub_ne_zero.mpr hγ
  simp only [Q2var, var2Q, Vector4d.mk.injEq]
  refine ⟨trivial, ?_, ?_, ?_⟩
  · field_simp
  · field_simp
  · field_simp
    ring

/-- Witness of C20 at `Q = (2, 6, -2, 65/2)`, `γ = 7/5`. -/
theorem var2Q_Q2var_witness :
    (Vector4d.mk 2 6 (-2) (65 / 2)).c0 ≠ 0 ∧ (7 / 5 : ℚ) ≠ 1 ∧
      var2Q (7 / 5) (Q2var (7 / 5) ⟨2, 6, -2, 65 / 2⟩) = ⟨2, 6, -2, 65 / 2⟩ :=
  ⟨by norm_num, by norm_num, var2Q_Q2var (7 / 5) ⟨2, 6, -2, 65 / 2⟩ (by norm_num) (by norm_num)⟩


/-! ### The loop of `compare` -/

theorem comparePoint_eq {s : Solver} {expected : List RUVP} {res : ℚ} {i : ℕ} {e c : RUVP}
    (he : expected[i]? = some e) (hc : s.solution_[i]? = some c) :
    comparePoint s expected res i = some (res + pointError e c) := by
  simp only [comparePoint, load, he, hc, Option.bind_eq_bind, Option.some_bind, Option.pure_def,
    pointError, Option.some.injEq]
  ring

theorem comparePoint_eq_some {s : Solver} {expected : List RUVP} {res res' : ℚ} {i : ℕ}
    (h : comparePoint s expected res i = some res') :
    ∃ e c, expected[i]? = some e ∧ s.solution_[i]? = some c ∧ res' = res + pointError e c := by
  simp only [comparePoint, load, Option.bind_eq_bind, Option.bind_eq_some, Option.pure_def,
    Option.some.injEq] at h
  obtain ⟨e, he, c, hc, e2, he2, c2, hc2, e3, he3, c3, hc3, e4, he4, c4, hc4, rfl⟩ := h
  rw [he] at he2 he3 he4
  rw [hc] at hc2 hc3 hc4
  cases he2; cases he3; cases he4; cases hc2; cases hc3; cases hc4
  exact ⟨e, c, he, hc, by simp only [pointError]; ring⟩

/-- The loop of `compare` returns when the reference is not longer than
`solution_`, with the sum of the point errors over the reference. -/
theorem compare_loop_spec {s : Solver} {expected : List RUVP}
    (hlen : expected.length ≤ s.solution_.length) (n : ℕ) (hn : n ≤ expected.length) :
    forLoop 0 n (comparePoint s expected) 0
      = some ((List.zipWith pointError expected s.solution_).take n).sum := by
  induction n with
  | zero => simp [forLoop_zero]
  | succ n ih =>
    have h1 : n < expected.length := by omega
    have h2 : n < s.solution_.length := by omega
    obtain ⟨e, he⟩ := getElem?_some_of_lt h1
    obtain ⟨c, hc⟩ := getElem?_some_of_lt h2
    rw [forLoop_zero_succ, ih (by omega)]
    simp only [Option.some_bind]
    rw [comparePoint_eq he hc]
    have hz : (List.zipWith pointError expected s.solution_)[n]? = some (pointError e c) := by
      simp [List.getElem?_zipWith, he, hc]
    rw [List.take_succ, hz]
    simp

/-- The value of `compare` on a reference that is not longer than `solution_`. -/
theorem compare_spec {s : Solver} {expected : List RUVP}
    (hlen : expected.length ≤ s.solution_.length) :
    s.compare expected
      = some ((List.zipWith pointError expected s.solution_).sum / (expected.length : ℚ)) := by
  have htake : (List.zipWith pointError expected s.solution_).take expected.length
      = List.zipWith pointError expected s.solution_ := by
    apply List.take_of_length_le
    simp [List.length_zipWith]
  simp only [Solver.compare, compare_loop_spec hlen expected.length le_rfl, htake,
    Option.bind_eq_bind, Option.some_bind, Option.pure_def]

theorem pointError_nonneg (e c : RUVP) : 0 ≤ pointError e c := by
  unfold pointError
  positivity

theorem pointError_eq_zero {e c : RUVP} : pointError e c = 0 ↔ e = c := by
  constructor
  · intro h
    unfold pointError at h
    have h1 := abs_nonneg (e.p - c.p)
    have h2 := abs_nonneg (e.u - c.u)
    have h3 := abs_nonneg (e.v - c.v)
    have h4 := abs_nonneg (e.r - c.r)
    have a1 : |e.p - c.p| = 0 := by linarith
    have a2 : |e.u - c.u| = 0 := by linarith
    have a3 : |e.v - c.v| = 0 := by linarith
    have a4 : |e.r - c.r| = 0 := by linarith
    rw [abs_eq_zero, sub_eq_zero] at a1 a2 a3 a4
    cases e
    cases c
    simp only [RUVP.mk.injEq]
    exact ⟨a4, a2, a3, a1⟩
  · rintro rfl
    simp [pointError]

/-- The sum of the point errors is not negative, and it is zero exactly when
the reference and the current field agree at every index they share. -/
theorem zipWith_pointError_sum (es cs : List RUVP) :
    0 ≤ (List.zipWith pointError es cs).sum ∧
    ((List.zipWith pointError es cs).sum = 0 ↔
      ∀ k, k < es.length → k < cs.length → es[k]? = cs[k]?) := by
  induction es generalizing cs with
  | nil => simp
  | cons e es ih =>
    cases cs with
    | nil => simp
    | cons c cs =>
      obtain ⟨i1, i2⟩ := ih cs
      have hp := pointError_nonneg e c
      simp only [List.zipWith_cons_cons, List.sum_cons, List.length_cons]
      refine ⟨by linarith, ?_⟩
      constructor
      · intro h
        have z1 : pointError e c = 0 := by linarith
        have z2 : (List.zipWith pointError es cs).sum = 0 := by linarith
        intro k hk1 hk2
        cases k with
        | zero => simp [pointError_eq_zero.mp z1]
        | succ k =>
          simp only [List.getElem?_cons_succ]
          exact i2.mp z2 k (by omega) (by omega)
      · intro h
        have z1 : pointError e c = 0 := by
          have := h 0 (by omega) (by omega)
          simp only [List.getElem?_cons_zero, Option.some.injEq] at this
          exact pointError_eq_zero.mpr this
        have z2 : (List.zipWith pointError es cs).sum = 0 :=
          i2.mpr (fun k hk1 hk2 => by
            have := h (k + 1) (by omega) (by omega)
            simpa only [List.getElem?_cons_succ] using this)
        linarith

/-! ### Claims on `compare` -/

/-- C11. Comparison zero case: in every solver state, `compare` called with the
current primitive array `solution_` as reference returns `0`. -/
theorem compare_self (s : Solver) : s.compare s.solution_ = some 0 := by
  rw [compare_spec le_rfl]
  have h := (zipWith_pointError_sum s.solution_ s.solution_).2.mpr (fun _ _ _ => rfl)
  rw [h, zero_div]

/-- C12. Comparison formula: for a reference of the length `n ≥ 1` of the current
solution, `compare` returns the sum over all points of
`|p_ref - p_cur| + |u_ref - u_cur| + |v_ref - v_cur| + |r_ref - r_cur|`, divided
by `n`; for the single-point field `{r=1,u=0,v=0,p=1}` and the reference
`{r=2,u=1,v=1,p=3}` it returns `5`. -/
theorem compare_formula (s : Solver) (reference : List RUVP)
    (hlen : reference.length = s.solution_.length) (_hn : 1 ≤ reference.length) :
    s.compare reference
      = some ((List.zipWith
          (fun e c => |e.p - c.p| + |e.u - c.u| + |e.v - c.v| + |e.r - c.r|)
          reference s.solution_).sum / (reference.length : ℚ)) ∧
    (∀ t : Solver, t.solution_ = [⟨1, 0, 0, 1⟩] → t.compare [⟨2, 1, 1, 3⟩] = some 5) := by
  refine ⟨compare_spec (le_of_eq hlen), ?_⟩
  intro t ht
  rw [compare_spec (by rw [ht]; exact le_rfl), ht]
  simp only [List.zipWith_cons_cons, List.zipWith_nil_right, List.sum_cons, List.sum_nil,
    pointError, List.length_singleton, Nat.cast_one, div_one, add_zero, Option.some.injEq]
  norm_num [abs_of_pos, abs_of_neg]

/-- Witness of C12: the single-point field of the claim. -/
theorem compare_formula_witness :
    [RUVP.mk 2 1 1 3].length = onePoint.solution_.length ∧ 1 ≤ [RUVP.mk 2 1 1 3].length ∧
    onePoint.compare [⟨2, 1, 1, 3⟩] = some 5 :=
  ⟨rfl, le_refl 1,
    (compare_formula onePoint [⟨2, 1, 1, 3⟩] rfl (le_refl 1)).2 onePoint rfl⟩

/-! ### `compare` in double arithmetic -/

theorem comparePointRounded_id (s : Solver) (expected : List RUVP) :
    comparePointRounded id s expected = comparePoint s expected := rfl

/-- Without rounding, `compareRounded` is `compare`. -/
theorem compareRounded_id (s : Solver) (expected : List RUVP) :
    s.compareRounded id expected = s.compare expected := rfl

theorem comparePointRounded_eq {fl : ℚ → ℚ} {s : Solver} {expected : List RUVP} {res : ℚ}
    {i : ℕ} {e c : RUVP} (he : expected[i]? = some e) (hc : s.solution_[i]? = some c) :
    comparePointRounded fl s expected res i
      = some (fl (fl (fl (fl (res + |fl (e.p - c.p)|) + |fl (e.u - c.u)|)
          + |fl (e.v - c.v)|) + |fl (e.r - c.r)|)) := by
  simp only [comparePointRounded, load, he, hc, Option.bind_eq_bind, Option.some_bind,
    Option.pure_def]

/-- The loop of `compareRounded` returns when the reference is not longer than
`solution_`; its sum is not negative, and it is zero when the reference and the
current field agree at the points summed. -/
theorem compareRounded_loop_spec {fl : ℚ → ℚ} (hfl0 : fl 0 = 0)
    (hfl : ∀ x, 0 ≤ x → 0 ≤ fl x) {s : Solver} {expected : List RUVP}
    (hlen : expected.length ≤ s.solution_.length) (n : ℕ) (hn : n ≤ expected.length) :
    ∃ res, forLoop 0 n (comparePointRounded fl s expected) 0 = some res ∧ 0 ≤ res ∧
      ((∀ k, k < n → expected[k]? = s.solution_[k]?) → res = 0) := by
  induction n with
  | zero => exact ⟨0, forLoop_zero _ _ _, le_rfl, fun _ => rfl⟩
  | succ n ih =>
    have h1 : n < expected.length := by omega
    have h2 : n < s.solution_.length := by omega
    obtain ⟨e, he⟩ := getElem?_some_of_lt h1
    obtain ⟨c, hc⟩ := getElem?_some_of_lt h2
    obtain ⟨res, hres, hnn, hz⟩ := ih (by omega)
    have step : ∀ r d : ℚ, 0 ≤ r → 0 ≤ fl (r + |fl d|) :=
      fun r d hr => hfl _ (add_nonneg hr (abs_nonneg _))
    refine ⟨_, by rw [forLoop_zero_succ, hres, Option.some_bind, comparePointRounded_eq he hc],
      step _ _ (step _ _ (step _ _ (step _ _ hnn))), ?_⟩
    intro hag
    have hec : e = c := by
      have := hag n (by omega)
      rw [he, hc] at this
      exact Option.some.inj this
    rw [hz (fun k hk => hag k (by omega)), hec]
    simp [hfl0]

/-- The power `2 ^ e` is positive. -/
theorem pow2_pos (e : ℤ) : 0 < pow2 e := by
  unfold pow2
  split_ifs <;> positivity

theorem roundHalfEven_nonneg {m : ℚ} (hm : 0 ≤ m) : 0 ≤ roundHalfEven m := by
  have hf : (0 : ℤ) ≤ ⌊m⌋ := Int.floor_nonneg.mpr hm
  unfold roundHalfEven
  dsimp only
  split_ifs <;> omega

/-- The least positive double `2 ^ (-1074)` is left as it is by the rounding, and
its half `2 ^ (-1075)`, which lies midway between the doubles `0` and
`2 ^ (-1074)`, is rounded to `0`. -/
theorem roundDouble_least :
    roundDouble (pow2 (-1074)) = pow2 (-1074) ∧ roundDouble (pow2 (-1075)) = 0 := by
  decide!

/-- Rounding to a double leaves `0` as it is. -/
theorem roundDouble_zero : roundDouble 0 = 0 := by
  simp [roundDouble, roundHalfEven]

/-- Rounding to a double keeps a result that is not negative so. -/
theorem roundDouble_nonneg (x : ℚ) (hx : 0 ≤ x) : 0 ≤ roundDouble x := by
  unfold roundDouble
  dsimp only
  have hq := pow2_pos (max (binade |x|) (-1022) - 52)
  have hm : 0 ≤ x / pow2 (max (binade |x|) (-1022) - 52) := div_nonneg hx (le_of_lt hq)
  have := roundHalfEven_nonneg hm
  have h2 : (0 : ℚ) ≤ (roundHalfEven (x / pow2 (max (binade |x|) (-1022) - 52)) : ℚ) := by
    exact_mod_cast this
  exact mul_nonneg h2 (le_of_lt hq)

/-- The integer `roundHalfEven m` is within `1/2` of `m`. -/
theorem roundHalfEven_near (m : ℚ) : |m - (roundHalfEven m : ℚ)| ≤ 1 / 2 := by
  have h1 : ((⌊m⌋ : ℤ) : ℚ) ≤ m := Int.floor_le m
  have h2 : m < ((⌊m⌋ : ℤ) : ℚ) + 1 := Int.lt_floor_add_one m
  unfold roundHalfEven
  dsimp only
  rw [abs_le]
  split_ifs <;> push_cast <;> constructor <;> linarith

/-- The result of `roundDouble` is a multiple of the spacing `2 ^ (e - 52)` of the
doubles of the magnitude of `x`, and no further from `x` than half that
spacing. -/
theorem roundDouble_near (x : ℚ) :
    |x - roundDouble x| ≤ pow2 (max (binade |x|) (-1022) - 52) / 2 := by
  have hq := pow2_pos (max (binade |x|) (-1022) - 52)
  have h := roundHalfEven_near (x / pow2 (max (binade |x|) (-1022) - 52))
  unfold roundDouble
  dsimp only
  have e : x - (roundHalfEven (x / pow2 (max (binade |x|) (-1022) - 52)) : ℚ)
        * pow2 (max (binade |x|) (-1022) - 52)
      = (x / pow2 (max (binade |x|) (-1022) - 52)
          - (roundHalfEven (x / pow2 (max (binade |x|) (-1022) - 52)) : ℚ))
        * pow2 (max (binade |x|) (-1022) - 52) := by
    rw [sub_mul, div_mul_cancel₀ _ (ne_of_gt hq)]
  rw [e, abs_mul, abs_of_pos hq]
  calc _ ≤ 1 / 2 * pow2 (max (binade |x|) (-1022) - 52) :=
        mul_le_mul_of_nonneg_right h (le_of_lt hq)
    _ = _ := by ring

/-! ### Claim on the zero of `compare` -/

/-- C19, counterexample. On `grid54` and the reference `tinyReference` of length
`2`, which differs from the current solution in the velocity `u` of point `0` by
the least positive double `2 ^ (-1074)`, `compare` in double arithmetic returns
`0`: the sum of the absolute differences is `2 ^ (-1074)`, exactly, and its
quotient by `2` is rounded to `0`. -/
theorem compare_zero_underflow :
    1 ≤ tinyReference.length ∧ tinyReference.length ≤ grid54.solution_.length ∧
    grid54.compareRounded roundDouble tinyReference = some 0 ∧
    ¬ (∀ k, k < tinyReference.length → tinyReference[k]? = grid54.solution_[k]?) := by
  refine ⟨by decide, by decide, by decide!, ?_⟩
  intro h
  have h0 := h 0 (by decide)
  revert h0
  decide!

/-- C19, as amended. For a reference of length `n` with `1 ≤ n` and `n` at most
the number of points: in double arithmetic, under every rounding `fl` that
leaves `0` as it is and keeps a result that is not negative so, `compare`
returns a value `c ≥ 0`, and `c = 0` when the reference equals the current
solution, in all of `r`, `u`, `v`, `p`, at every index `0..n-1`; in exact
arithmetic `compare` returns a value `c ≥ 0`, and `c = 0` exactly when the
reference equals the current solution at every index `0..n-1`. -/
theorem compare_zero_of_agreement (fl : ℚ → ℚ) (hfl0 : fl 0 = 0)
    (hfl : ∀ x, 0 ≤ x → 0 ≤ fl x) (s : Solver) (reference : List RUVP)
    (hn : 1 ≤ reference.length) (hle : reference.length ≤ s.solution_.length) :
    (∃ c, s.compareRounded fl reference = some c ∧ 0 ≤ c ∧
      ((∀ k, k < reference.length → reference[k]? = s.solution_[k]?) → c = 0)) ∧
    (∃ c, s.compare reference = some c ∧ 0 ≤ c ∧
      (c = 0 ↔ ∀ k, k < reference.length → reference[k]? = s.solution_[k]?)) := by
  constructor
  · obtain ⟨res, hres, hnn, hz⟩ :=
      compareRounded_loop_spec hfl0 hfl hle reference.length le_rfl
    refine ⟨fl (res / fl (reference.length : ℚ)), by
      simp only [Solver.compareRounded, hres, Option.bind_eq_bind, Option.some_bind,
        Option.pure_def], hfl _ (div_nonneg hnn (hfl _ (Nat.cast_nonneg _))), ?_⟩
    intro hag
    rw [hz hag, zero_div, hfl0]
  · obtain ⟨h1, h2⟩ := zipWith_pointError_sum reference s.solution_
    have hpos : (0 : ℚ) < (reference.length : ℚ) := by exact_mod_cast hn
    refine ⟨_, compare_spec hle, div_nonneg h1 (le_of_lt hpos), ?_⟩
    rw [div_eq_zero_iff, h2]
    constructor
    · rintro (h | h)
      · exact fun k hk => h k hk (by omega)
      · exact absurd h (ne_of_gt hpos)
    · exact fun h => Or.inl (fun k hk _ => h k hk)

/-- Witness of C19, as amended: the rounding `roundDouble`, `grid54` and the
reference `tinyReference`; `compare` returns a value that is not negative in
double arithmetic, and a value other than `0` in exact arithmetic. -/
theorem compare_zero_of_agreement_witness :
    roundDouble 0 = 0 ∧ (∀ x, 0 ≤ x → 0 ≤ roundDouble x) ∧
    1 ≤ tinyReference.length ∧ tinyReference.length ≤ grid54.solution_.length ∧
    (∃ c, grid54.compareRounded roundDouble tinyReference = some c ∧ 0 ≤ c) ∧
    (∃ c, grid54.compare tinyReference = some c ∧ c ≠ 0) := by
  obtain ⟨⟨c, h1, h2, -⟩, ⟨d, h3, -, h4⟩⟩ :=
    compare_zero_of_agreement roundDouble roundDouble_zero roundDouble_nonneg grid54
      tinyReference (by decide) (by decide)
  refine ⟨roundDouble_zero, roundDouble_nonneg, by decide, by decide, ⟨c, h1, h2⟩, d, h3, ?_⟩
  intro hd
  have h0 := h4.mp hd 0 (by decide)
  revert h0
  decide!

/-! ### The left and right walls -/


/-- C14. Left and right wall pass as implemented: on a grid with `3 ≤ N_y ≤ N_x`
`boundaries()` returns, and with `Q1` the array after its first loop (the top and
bottom pass) and `Q'` the final array, for every row `j < N_y`: the state at
`(0, j)` is the final state at `(1, j)` with component 1 negated; column
`N_y - 2` is not changed by the second loop; when `N_x = N_y` the right edge
`(N_x - 1, j)` is the final state at `(N_x - 2, j)` with component 1 negated; when
`N_x > N_y` the right edge is the final state at `(N_y - 2, j)`, not negated, and
column `N_y - 1` holds its state after the first loop with component 1 negated. -/
theorem boundaries_left_right (N M : ℕ) (Q : List Vector4d) (hM : 3 ≤ M) (hMN : M ≤ N)
    (hlen : Q.length = N * M) :
    ∃ Q1 Q', forLoop 0 N (boundariesRows N M) Q = some Q1 ∧
      forLoop 0 M (boundariesCols N M) Q1 = some Q' ∧
      boundaries N M Q = some Q' ∧ Q'.length = N * M ∧
      ∀ j, j < M →
        Q'[ij2k N 0 j]? = Q'[ij2k N 1 j]?.map Vector4d.neg1 ∧
        Q'[ij2k N (M - 2) j]? = Q1[ij2k N (M - 2) j]? ∧
        (M = N → Q'[ij2k N (N - 1) j]? = Q'[ij2k N (N - 2) j]?.map Vector4d.neg1) ∧
        (M < N → Q'[ij2k N (N - 1) j]? = Q'[ij2k N (M - 2) j]? ∧
          Q'[ij2k N (M - 1) j]? = Q1[ij2k N (M - 1) j]?.map Vector4d.neg1) := by
  obtain ⟨Q1, h1, hl1, -⟩ := rows_loop_spec (Q := Q) hM (le_of_eq hlen.symm) N le_rfl
  obtain ⟨Q', h2, hl2, hc⟩ := cols_loop_spec (Q := Q1) hM hMN (by omega) M le_rfl
  refine ⟨Q1, Q', h1, h2, by simp [boundaries, h1, h2], by omega, ?_⟩
  intro j hj
  have f1 : ¬ (M - 1 = 0) := by omega
  have f2 : ¬ (M - 2 = 0) := by omega
  have f3 : ¬ (M - 2 = M - 1) := by omega
  have f4 : ¬ (1 = M - 1) := by omega
  have f5 : ¬ (N - 1 = 0) := by omega
  rw [hc 0 j (by omega), hc 1 j (by omega), hc (M - 2) j (by omega), hc (N - 1) j (by omega),
    hc (M - 1) j (by omega), hc (N - 2) j (by omega)]
  simp only [if_pos hj, afterColsRow, f1, f2, f3, f4, f5, if_true, if_false, one_ne_zero]
  refine ⟨?_, ?_, ?_, ?_⟩
  · by_cases h : 1 = N - 1
    · omega
    · rw [if_neg h]
  · by_cases h : M - 2 = N - 1
    · omega
    · rw [if_neg h]
  · intro hsq
    subst hsq
    have g1 : ¬ (M - 2 = M - 1) := by omega
    simp [g1, f2]
  · intro hlt
    have g1 : ¬ (N - 1 = M - 1) := by omega
    have g2 : ¬ (M = N) := by omega
    have g3 : ¬ (M - 2 = N - 1) := by omega
    simp [g1, g2, g3]

/-- Witness of C14 on the uniform 4 x 3 field. -/
theorem boundaries_left_right_witness :
    3 ≤ 3 ∧ 3 ≤ 4 ∧ uniform43.length = 4 * 3 ∧
    ∃ Q', boundaries 4 3 uniform43 = some Q' ∧ Q'.length = 4 * 3 ∧
      ∀ j, j < 3 → Q'[ij2k 4 0 j]? = Q'[ij2k 4 1 j]?.map Vector4d.neg1 :=
  ⟨le_refl 3, by decide, by simp [uniform43],
    (boundaries_left_right 4 3 uniform43 (le_refl 3) (by decide) (by simp [uniform43])).elim
      (fun _ h => h.imp (fun _ g => ⟨g.2.2.1, g.2.2.2.1, fun j hj => (g.2.2.2.2 j hj).1⟩))⟩

/-! ### Independence of the outer ring -/


/-- Every index below `N * M` is the flat index of a point of the grid. -/
theorem exists_ij2k {N M n : ℕ} (h : n < N * M) : ∃ i j, i < N ∧ j < M ∧ n = ij2k N i j := by
  have hN : 0 < N := by
    rcases Nat.eq_zero_or_pos N with h0 | h0
    · subst h0; simp at h
    · exact h0
  refine ⟨n % N, n / N, Nat.mod_lt _ hN, ?_, ?_⟩
  · exact Nat.div_lt_of_lt_mul h
  · unfold ij2k
    rw [Nat.mul_comm]
    exact (Nat.mod_add_div n N).symm

/-- Two arrays of length `N * M` that hold the same state at every point of the
grid are equal. -/
theorem ext_grid {N M : ℕ} {A B : List Vector4d} (hA : A.length = N * M) (hB : B.length = N * M)
    (h : ∀ i j, i < N → j < M → A[ij2k N i j]? = B[ij2k N i j]?) : A = B := by
  apply List.ext_getElem?
  intro n
  by_cases hn : n < N * M
  · obtain ⟨i, j, hi, hj, rfl⟩ := exists_ij2k hn
    exact h i j hi hj
  · rw [List.getElem?_eq_none (by omega), List.getElem?_eq_none (by omega)]

/-- The closed form of `boundaries` reads interior points only. -/
theorem afterBoundaries_congr {N M : ℕ} {A B : List Vector4d} (hM : 3 ≤ M) (hMN : M ≤ N)
    (h : ∀ i j, 1 ≤ i → i ≤ N - 2 → 1 ≤ j → j ≤ M - 2 → A[ij2k N i j]? = B[ij2k N i j]?)
    {i j : ℕ} (hi : i < N) (hj : j < M) :
    afterBoundaries N M A i j = afterBoundaries N M B i j := by
  have hrow : ∀ c, 1 ≤ c → c ≤ N - 2 → afterRows N M A c j = afterRows N M B c j := by
    intro c hc1 hc2
    unfold afterRows
    by_cases h0 : j = 0
    · rw [if_pos h0, if_pos h0, h c 1 hc1 hc2 le_rfl (by omega)]
    · rw [if_neg h0, if_neg h0]
      by_cases h1 : j = M - 1
      · rw [if_pos h1, if_pos h1, h c (M - 2) hc1 hc2 (by omega) le_rfl]
      · rw [if_neg h1, if_neg h1, h c j hc1 hc2 (by omega) (by omega)]
  unfold afterBoundaries afterColsRow
  dsimp only
  by_cases c0 : i = 0
  · rw [if_pos c0, if_pos c0, hrow 1 le_rfl (by omega)]
  · rw [if_neg c0, if_neg c0]
    by_cases c1 : i = M - 1
    · rw [if_pos c1, if_pos c1]
      by_cases c2 : M = N
      · rw [if_pos c2, if_pos c2, hrow (M - 2) (by omega) (by omega)]
      · rw [if_neg c2, if_neg c2, hrow (M - 1) (by omega) (by omega)]
    · rw [if_neg c1, if_neg c1]
      by_cases c3 : i = N - 1
      · rw [if_pos c3, if_pos c3, hrow (M - 2) (by omega) (by omega)]
      · rw [if_neg c3, if_neg c3, hrow i (by omega) (by omega)]

/-- On a grid with `3 ≤ N_y ≤ N_x`, `boundaries` gives the same array from two
arrays that agree at the interior points. -/
theorem boundaries_congr {N M : ℕ} {A B : List Vector4d} (hM : 3 ≤ M) (hMN : M ≤ N)
    (hA : A.length = N * M) (hB : B.length = N * M)
    (h : ∀ i j, 1 ≤ i → i ≤ N - 2 → 1 ≤ j → j ≤ M - 2 → A[ij2k N i j]? = B[ij2k N i j]?) :
    ∃ Q', boundaries N M A = some Q' ∧ boundaries N M B = some Q' ∧ Q'.length = N * M := by
  obtain ⟨A', hA', lA', cA'⟩ := boundaries_spec (Q := A) hM hMN (le_of_eq hA.symm)
  obtain ⟨B', hB', lB', cB'⟩ := boundaries_spec (Q := B) hM hMN (le_of_eq hB.symm)
  have e : A' = B' := by
    apply ext_grid (N := N) (M := M) (by omega) (by omega)
    intro i j hi hj
    rw [cA' i j hi hj, cB' i j hi hj]
    exact afterBoundaries_congr hM hMN h hi hj
  subst e
  exact ⟨A', hA', hB', by omega⟩

/-- C17. Stale ghost values are irrelevant: on a grid with `3 ≤ N_y ≤ N_x`, two
conservative fields that agree at every interior point (column `1..N_x-2`, row
`1..N_y-2`) are taken by `boundaries()` to the same field; hence a pass of the
loop of `LaxFriedrichs` started with another scratch array `Q_tmp` of the same
length ends in the same solver state. -/
theorem stale_ghosts_irrelevant (γ : ℚ) (sqrt : ℚ → ℚ) (N M : ℕ) (hM : 3 ≤ M) (hMN : M ≤ N) :
    (∀ A B : List Vector4d, A.length = N * M → B.length = N * M →
      (∀ i j, 1 ≤ i → i ≤ N - 2 → 1 ≤ j → j ≤ M - 2 → A[ij2k N i j]? = B[ij2k N i j]?) →
      ∃ Q', boundaries N M A = some Q' ∧ boundaries N M B = some Q') ∧
    (∀ (s s' : Solver) (A B A' : List Vector4d), s.stride_ = N → s.N_y = M →
      N * M ≤ s.Q_.length → N * M ≤ s.F_.length → N * M ≤ s.G_.length →
      A.length = N * M → B.length = N * M →
      LaxFriedrichsStep γ sqrt (s, A) = some (s', A') →
      ∃ B', LaxFriedrichsStep γ sqrt (s, B) = some (s', B')) := by
  refine ⟨fun A B hA hB h => ?_, ?_⟩
  · obtain ⟨Q', h1, h2, -⟩ := boundaries_congr hM hMN hA hB h
    exact ⟨Q', h1, h2⟩
  · intro s s' A B A' hN hMy lQ lF lG hA hB hstep
    obtain ⟨s1, Qt, Q', s3, s5, h1, h2, h3, h4, h5, h6⟩ := LaxFriedrichsStep_eq_some hstep
    obtain ⟨-, hs1⟩ := cfl_scan_spec _ h1
    have e1 : s1.stride_ = N := by rw [hs1]; exact hN
    have e2 : s1.N_y = M := by rw [hs1]; exact hMy
    have e3 : s1.Q_ = s.Q_ := by rw [hs1]
    have e4 : s1.F_ = s.F_ := by rw [hs1]
    have e5 : s1.G_ = s.G_ := by rw [hs1]
    obtain ⟨Ta, ha, la, ca⟩ := @interiorUpdate_spec s1 A (by rw [e1, e2, e3]; exact lQ)
      (by rw [e1, e2, e4]; exact lF) (by rw [e1, e2, e5]; exact lG) (by rw [e1, e2, hA])
    obtain ⟨Tb, hb, lb, cb⟩ := @interiorUpdate_spec s1 B (by rw [e1, e2, e3]; exact lQ)
      (by rw [e1, e2, e4]; exact lF) (by rw [e1, e2, e5]; exact lG) (by rw [e1, e2, hB])
    simp only at h2
    rw [ha] at h2
    cases h2
    rw [e1, e2] at ca cb h3
    have hagree : ∀ i j, 1 ≤ i → i ≤ N - 2 → 1 ≤ j → j ≤ M - 2 →
        Qt[ij2k N i j]? = Tb[ij2k N i j]? := by
      intro i j hi1 hi2 hj1 hj2
      have hc : (1 ≤ i ∧ i < N - 1) ∧ 1 ≤ j ∧ j < M - 1 := by omega
      rw [ca i j (by omega), cb i j (by omega), if_pos hc, if_pos hc]
    obtain ⟨Q'', k1, k2, -⟩ := boundaries_congr hM hMN (by omega) (by omega) hagree
    rw [h3] at k1
    cases k1
    refine ⟨Tb, ?_⟩
    simp only [Prod.mk.injEq] at h6
    obtain ⟨rfl, rfl⟩ := h6
    simp only [LaxFriedrichsStep, Option.bind_eq_bind, Option.pure_def]
    simp only at h1 h4 h5
    have k2' : boundaries s1.stride_ s1.N_y Tb = some Q' := by rw [e1, e2]; exact k2
    rw [h1]
    simp only [Option.some_bind, hb, k2', h4, h5]

/-- Witness of C17: the uniform 3 x 3 field and the field that agrees with it at
the interior point only are taken to the same field. -/
theorem stale_ghosts_irrelevant_witness :
    3 ≤ 3 ∧ ∃ Q', boundaries 3 3 uniform33 = some Q' ∧ boundaries 3 3 hollow33 = some Q' :=
  ⟨le_refl 3,
    (stale_ghosts_irrelevant (7 / 5) sqrtUnit 3 3 (le_refl 3) (le_refl 3)).1 uniform33 hollow33
      (by decide!) (by decide!)
      (fun i j hi1 hi2 hj1 hj2 => by
        have hi : i = 1 := by omega
        have hj : j = 1 := by omega
        subst hi
        subst hj
        decide!)⟩

/-! ### Index safety of `boundaries` -/

theorem load_lt {α : Type} {v : List α} {k : ℕ} {a : α} (h : v[k]? = some a) : k < v.length := by
  by_contra hcon
  rw [List.getElem?_eq_none (by omega)] at h
  cases h

/-- A pass of the first loop returns exactly when its indices are in the array. -/
theorem boundariesRows_isSome {N M i : ℕ} {Q : List Vector4d} :
    (∃ Q', boundariesRows N M Q i = some Q') ↔
      ∀ k ∈ boundariesRowsIndices N M i, k < Q.length := by
  constructor
  · rintro ⟨Q', h⟩
    simp only [boundariesRows, load, Option.bind_eq_bind, Option.bind_eq_some] at h
    obtain ⟨a, ha, Q1, h1, b, hb, Q2, h2, c, hc, Q3, h3, d, hd, h4⟩ := h
    have l1 := store_length h1
    have l2 := store_length h2
    have l3 := store_length h3
    have b1 := load_lt ha
    have b2 := (store_eq_some h1).1
    have b3 := load_lt hc
    have b4 := (store_eq_some h3).1
    intro k hk
    simp only [boundariesRowsIndices, List.mem_cons, List.mem_singleton, List.not_mem_nil,
      or_false] at hk
    rcases hk with rfl | rfl | rfl | rfl | rfl | rfl | rfl | rfl <;> omega
  · intro h
    have b1 : ij2k N i 1 < Q.length := h _ (by simp [boundariesRowsIndices])
    have b0 : ij2k N i 0 < Q.length := h _ (by simp [boundariesRowsIndices])
    have b2 : ij2k N i (M - 2) < Q.length := h _ (by simp [boundariesRowsIndices])
    have b3 : ij2k N i (M - 1) < Q.length := h _ (by simp [boundariesRowsIndices])
    obtain ⟨a, ha⟩ := getElem?_some_of_lt b1
    obtain ⟨b, hb⟩ := getElem?_some_of_lt
      (by rw [List.length_set]; exact b0 : ij2k N i 0 < (Q.set (ij2k N i 0) a).length)
    obtain ⟨c, hc⟩ := getElem?_some_of_lt
      (by rw [List.length_set, List.length_set]; exact b2 :
        ij2k N i (M - 2) < ((Q.set (ij2k N i 0) a).set (ij2k N i 0) b.neg2).length)
    obtain ⟨d, hd⟩ := getElem?_some_of_lt
      (by rw [List.length_set, List.length_set, List.length_set]; exact b3 :
        ij2k N i (M - 1) < (((Q.set (ij2k N i 0) a).set (ij2k N i 0) b.neg2).set
          (ij2k N i (M - 1)) c).length)
    refine ⟨(((Q.set (ij2k N i 0) a).set (ij2k N i 0) b.neg2).set (ij2k N i (M - 1)) c).set
      (ij2k N i (M - 1)) d.neg2, ?_⟩
    simp only [boundariesRows, load, store, Option.bind_eq_bind, ha, Option.some_bind, if_pos b0,
      hb, List.length_set, hc, if_pos b3, hd]

/-- A pass of the second loop returns exactly when its indices are in the array. -/
theorem boundariesCols_isSome {N M j : ℕ} {Q : List Vector4d} :
    (∃ Q', boundariesCols N M Q j = some Q') ↔
      ∀ k ∈ boundariesColsIndices N M j, k < Q.length := by
  constructor
  · rintro ⟨Q', h⟩
    simp only [boundariesCols, load, Option.bind_eq_bind, Option.bind_eq_some] at h
    obtain ⟨a, ha, Q1, h1, b, hb, Q2, h2, c, hc, Q3, h3, d, hd, h4⟩ := h
    have l1 := store_length h1
    have l2 := store_length h2
    have l3 := store_length h3
    have b1 := load_lt ha
    have b2 := (store_eq_some h1).1
    have b3 := load_lt hc
    have b4 := (store_eq_some h3).1
    have b5 := load_lt hd
    intro k hk
    simp only [boundariesColsIndices, List.mem_cons, List.mem_singleton, List.not_mem_nil,
      or_false] at hk
    rcases hk with rfl | rfl | rfl | rfl | rfl | rfl | rfl | rfl <;> omega
  · intro h
    have b1 : ij2k N 1 j < Q.length := h _ (by simp [boundariesColsIndices])
    have b0 : ij2k N 0 j < Q.length := h _ (by simp [boundariesColsIndices])
    have b2 : ij2k N (M - 2) j < Q.length := h _ (by simp [boundariesColsIndices])
    have b3 : ij2k N (M - 1) j < Q.length := h _ (by simp [boundariesColsIndices])
    have b4 : ij2k N (N - 1) j < Q.length := h _ (by simp [boundariesColsIndices])
    obtain ⟨a, ha⟩ := getElem?_some_of_lt b1
    obtain ⟨b, hb⟩ := getElem?_some_of_lt
      (by rw [List.length_set]; exact b0 : ij2k N 0 j < (Q.set (ij2k N 0 j) a).length)
    obtain ⟨c, hc⟩ := getElem?_some_of_lt
      (by rw [List.length_set, List.length_set]; exact b2 :
        ij2k N (M - 2) j < ((Q.set (ij2k N 0 j) a).set (ij2k N 0 j) b.neg1).length)
    obtain ⟨d, hd⟩ := getElem?_some_of_lt
      (by rw [List.length_set, List.length_set, List.length_set]; exact b3 :
        ij2k N (M - 1) j < (((Q.set (ij2k N 0 j) a).set (ij2k N 0 j) b.neg1).set
          (ij2k N (N - 1) j) c).length)
    refine ⟨(((Q.set (ij2k N 0 j) a).set (ij2k N 0 j) b.neg1).set (ij2k N (N - 1) j) c).set
      (ij2k N (M - 1) j) d.neg1, ?_⟩
    simp only [boundariesCols, load, store, Option.bind_eq_bind, ha, Option.some_bind, if_pos b0,
      hb, List.length_set, hc, if_pos b4, hd, if_pos b3]

/-- A loop over an array whose passes keep the length of the array and return
exactly when the condition `R k` holds of this length returns exactly when
`R k` holds of the length for every pass `k`. -/
theorem forLoop_isSome_iff {α : Type} (body : List α → ℕ → Option (List α))
    (R : ℕ → ℕ → Prop)
    (hlen : ∀ t k t', body t k = some t' → t'.length = t.length)
    (hR : ∀ t k, (∃ t', body t k = some t') ↔ R k t.length) (n : ℕ) (s : List α) :
    (∃ s', forLoop 0 n body s = some s') ↔ ∀ k, k < n → R k s.length := by
  induction n with
  | zero =>
    simp only [forLoop_zero, Option.some.injEq, exists_eq', true_iff]
    intro k hk
    omega
  | succ n ih =>
    rw [forLoop_zero_succ]
    constructor
    · rintro ⟨s', h⟩
      obtain ⟨t, ht, hb⟩ := Option.bind_eq_some.mp h
      have hl : t.length = s.length :=
        forLoop_preserves (fun u => u.length = s.length) body 0 n s t rfl
          (fun k u u' hu hb' => (hlen u k u' hb').trans hu) ht
      have h1 := ih.mp ⟨t, ht⟩
      have h2 := (hR t n).mp ⟨s', hb⟩
      rw [hl] at h2
      intro k hk
      by_cases hkn : k = n
      · subst hkn; exact h2
      · exact h1 k (by omega)
    · intro h
      obtain ⟨t, ht⟩ := ih.mpr (fun k hk => h k (by omega))
      have hl : t.length = s.length :=
        forLoop_preserves (fun u => u.length = s.length) body 0 n s t rfl
          (fun k u u' hu hb' => (hlen u k u' hb').trans hu) ht
      obtain ⟨t', ht'⟩ := (hR t n).mpr (by rw [hl]; exact h n (by omega))
      exact ⟨t', by rw [ht]; exact ht'⟩

/-- The call `boundaries()` returns exactly when every index it reads or writes
is inside `Q_`. -/
theorem boundaries_isSome_iff {N M : ℕ} {Q : List Vector4d} :
    (∃ Q', boundaries N M Q = some Q') ↔ ∀ k ∈ boundariesIndices N M, k < Q.length := by
  have hrows := forLoop_isSome_iff (boundariesRows N M)
    (fun i L => ∀ k ∈ boundariesRowsIndices N M i, k < L)
    (fun t k t' h => boundariesRows_length h) (fun t k => boundariesRows_isSome)
  have hcols := forLoop_isSome_iff (boundariesCols N M)
    (fun j L => ∀ k ∈ boundariesColsIndices N M j, k < L)
    (fun t k t' h => boundariesCols_length h) (fun t k => boundariesCols_isSome)
  simp only [boundariesIndices, List.mem_append, List.mem_flatMap, List.mem_range]
  constructor
  · rintro ⟨Q', h⟩
    simp only [boundaries, Option.bind_eq_bind, Option.bind_eq_some] at h
    obtain ⟨Q1, h1, h2⟩ := h
    have hl : Q1.length = Q.length :=
      forLoop_preserves (fun u => u.length = Q.length) _ 0 N Q Q1 rfl
        (fun k u u' hu hb => (boundariesRows_length hb).trans hu) h1
    have r1 := (hrows N Q).mp ⟨Q1, h1⟩
    have r2 := (hcols M Q1).mp ⟨Q', h2⟩
    rw [hl] at r2
    rintro k (⟨i, hi, hk⟩ | ⟨j, hj, hk⟩)
    · exact r1 i hi k hk
    · exact r2 j hj k hk
  · intro h
    obtain ⟨Q1, h1⟩ := (hrows N Q).mpr (fun i hi k hk => h k (Or.inl ⟨i, hi, hk⟩))
    have hl : Q1.length = Q.length :=
      forLoop_preserves (fun u => u.length = Q.length) _ 0 N Q Q1 rfl
        (fun k u u' hu hb => (boundariesRows_length hb).trans hu) h1
    obtain ⟨Q', h2⟩ := (hcols M Q1).mpr
      (fun j hj k hk => by rw [hl]; exact h k (Or.inr ⟨j, hj, hk⟩))
    exact ⟨Q', by simp [boundaries, h1, h2]⟩

theorem corner_mem_boundariesIndices {N M : ℕ} (hM : 1 ≤ M) :
    ij2k N (M - 1) (M - 1) ∈ boundariesIndices N M := by
  simp only [boundariesIndices, List.mem_append, List.mem_flatMap, List.mem_range]
  exact Or.inr ⟨M - 1, by omega, by simp [boundariesColsIndices]⟩

theorem corner_out_of_range {N M : ℕ} (h : N < M) : N * M ≤ ij2k N (M - 1) (M - 1) := by
  obtain ⟨m, rfl⟩ : ∃ m, M = m + 1 := ⟨M - 1, by omega⟩
  simp only [ij2k, Nat.add_sub_cancel]
  have : N ≤ m := by omega
  nlinarith

theorem corner_in_range {N M : ℕ} (h : ij2k N (M - 1) (M - 1) < N * M) : M ≤ N := by
  by_contra hcon
  have := corner_out_of_range (by omega : N < M)
  omega

theorem boundariesIndices_lt {N M : ℕ} (hN : 2 ≤ N) (hM : 2 ≤ M) (hMN : M ≤ N) :
    ∀ k ∈ boundariesIndices N M, k < N * M := by
  intro k hk
  simp only [boundariesIndices, List.mem_append, List.mem_flatMap, List.mem_range] at hk
  rcases hk with ⟨i, hi, hk⟩ | ⟨j, hj, hk⟩
  · simp only [boundariesRowsIndices, List.mem_cons, List.mem_singleton, List.not_mem_nil,
      or_false] at hk
    rcases hk with rfl | rfl | rfl | rfl | rfl | rfl | rfl | rfl <;>
      exact ij2k_lt hi (by omega)
  · simp only [boundariesColsIndices, List.mem_cons, List.mem_singleton, List.not_mem_nil,
      or_false] at hk
    rcases hk with rfl | rfl | rfl | rfl | rfl | rfl | rfl | rfl <;>
      exact ij2k_lt (by omega) hj

/-- C16. Index safety of `boundaries()`: for a grid of `N_x * N_y` points with
`N_x, N_y ≥ 2`, every flat index that `boundaries()` reads or writes is below
`N_x * N_y` if and only if `N_y ≤ N_x`, and so the call returns if and only if
`N_y ≤ N_x`; for `N_y > N_x` the index `(N_y-1) + (N_y-1) * N_x` is among those
accessed and is at least `N_x * N_y`. -/
theorem boundaries_index_safety (N M : ℕ) (Q : List Vector4d) (hN : 2 ≤ N) (hM : 2 ≤ M)
    (hlen : Q.length = N * M) :
    ((∀ k ∈ boundariesIndices N M, k < N * M) ↔ M ≤ N) ∧
    ((∃ Q', boundaries N M Q = some Q') ↔ M ≤ N) ∧
    (N < M → ij2k N (M - 1) (M - 1) ∈ boundariesIndices N M ∧
      N * M ≤ ij2k N (M - 1) (M - 1) ∧ boundaries N M Q = none) := by
  have key : (∀ k ∈ boundariesIndices N M, k < N * M) ↔ M ≤ N :=
    ⟨fun h => corner_in_range (h _ (corner_mem_boundariesIndices (by omega))),
      fun h => boundariesIndices_lt hN hM h⟩
  have key2 : (∃ Q', boundaries N M Q = some Q') ↔ M ≤ N := by
    rw [boundaries_isSome_iff, hlen]
    exact key
  refine ⟨key, key2, fun h => ⟨corner_mem_boundariesIndices (by omega), corner_out_of_range h, ?_⟩⟩
  cases hb : boundaries N M Q with
  | none => rfl
  | some Q' => exact absurd (key2.mp ⟨Q', hb⟩) (by omega)

/-- Witness of C16: on a grid of 3 columns and 4 rows the call is out of range. -/
theorem boundaries_index_safety_witness :
    2 ≤ 3 ∧ 2 ≤ 4 ∧ uniform43.length = 3 * 4 ∧
    ij2k 3 (4 - 1) (4 - 1) ∈ boundariesIndices 3 4 ∧ 3 * 4 ≤ ij2k 3 (4 - 1) (4 - 1) ∧
    boundaries 3 4 uniform43 = none :=
  ⟨by decide, by decide, by simp [uniform43],
    (boundaries_index_safety 3 4 uniform43 (by decide) (by decide) (by simp [uniform43])).2.2
      (by decide)⟩

/-! ### Claim on the interior update formula -/


theorem smul_sdiv_two (B : Vector4d) (dt : ℚ) : B * dt / (2 : ℚ) = B * (dt / 2) := by
  obtain ⟨b0, b1, b2, b3⟩ := B
  show Vector4d.sdiv (Vector4d.smul _ dt) 2 = Vector4d.smul _ (dt / 2)
  simp only [Vector4d.sdiv, Vector4d.smul, Vector4d.mk.injEq]
  refine ⟨?_, ?_, ?_, ?_⟩ <;> ring

/-- C15. Lax-Friedrichs interior update: in a pass of the loop on arrays that
cover the grid, for every interior point `(i, j)`, `1 ≤ i ≤ N_x - 2`,
`1 ≤ j ≤ N_y - 2`, the value that the interior update stores in `Q_tmp` is
`(Q(i+1,j) + Q(i,j-1) + Q(i-1,j) + Q(i,j+1)) / 4
 - [(F(i+1,j) - F(i-1,j)) / x_step_ + (G(i,j+1) - G(i,j-1)) / y_step_] * (dt / 2)`,
with `Q`, `F`, `G` the arrays at the start of the pass and `dt` the step that the
CFL scan of this pass left. -/
theorem interior_update_formula (γ : ℚ) (sqrt : ℚ → ℚ) (st st' : Solver × List Vector4d)
    (lQ : st.1.stride_ * st.1.N_y ≤ st.1.Q_.length)
    (lF : st.1.stride_ * st.1.N_y ≤ st.1.F_.length)
    (lG : st.1.stride_ * st.1.N_y ≤ st.1.G_.length)
    (lT : st.1.stride_ * st.1.N_y ≤ st.2.length)
    (h : LaxFriedrichsStep γ sqrt st = some st') :
    ∃ s1 Qt, forLoop 0 st.1.xy_.length (cfl γ sqrt) st.1 = some s1 ∧
      interiorUpdate s1 st.2 = some Qt ∧ st'.2 = Qt ∧
      ∀ i j, 1 ≤ i → i ≤ st.1.stride_ - 2 → 1 ≤ j → j ≤ st.1.N_y - 2 →
        ∃ qE qS qW qN fE fW gN gS,
          st.1.Q_[ij2k st.1.stride_ (i + 1) j]? = some qE ∧
          st.1.Q_[ij2k st.1.stride_ i (j - 1)]? = some qS ∧
          st.1.Q_[ij2k st.1.stride_ (i - 1) j]? = some qW ∧
          st.1.Q_[ij2k st.1.stride_ i (j + 1)]? = some qN ∧
          st.1.F_[ij2k st.1.stride_ (i + 1) j]? = some fE ∧
          st.1.F_[ij2k st.1.stride_ (i - 1) j]? = some fW ∧
          st.1.G_[ij2k st.1.stride_ i (j + 1)]? = some gN ∧
          st.1.G_[ij2k st.1.stride_ i (j - 1)]? = some gS ∧
          Qt[ij2k st.1.stride_ i j]? = some ((qE + qS + qW + qN) / (4 : ℚ)
            - ((fE - fW) / st.1.x_step_ + (gN - gS) / st.1.y_step_) * (s1.dt_ / 2)) := by
  obtain ⟨s1, Qt, Q', s3, s5, h1, h2, -, -, -, rfl⟩ := LaxFriedrichsStep_eq_some h
  obtain ⟨-, hs1⟩ := cfl_scan_spec _ h1
  have e1 : s1.stride_ = st.1.stride_ := by rw [hs1]
  have e2 : s1.N_y = st.1.N_y := by rw [hs1]
  have e3 : s1.Q_ = st.1.Q_ := by rw [hs1]
  have e4 : s1.F_ = st.1.F_ := by rw [hs1]
  have e5 : s1.G_ = st.1.G_ := by rw [hs1]
  have e6 : s1.x_step_ = st.1.x_step_ := by rw [hs1]
  have e7 : s1.y_step_ = st.1.y_step_ := by rw [hs1]
  have mQ : s1.stride_ * s1.N_y ≤ s1.Q_.length := by rw [e1, e2, e3]; exact lQ
  have mF : s1.stride_ * s1.N_y ≤ s1.F_.length := by rw [e1, e2, e4]; exact lF
  have mG : s1.stride_ * s1.N_y ≤ s1.G_.length := by rw [e1, e2, e5]; exact lG
  obtain ⟨Qt', hq, -, hcell⟩ := @interiorUpdate_spec s1 st.2 mQ mF mG (by rw [e1, e2]; exact lT)
  rw [h2] at hq
  cases hq
  refine ⟨s1, Qt, h1, h2, rfl, ?_⟩
  intro i j hi1 hi2 hj1 hj2
  obtain ⟨qE, qS, qW, qN, fE, fW, gN, gS, a1, a2, a3, a4, a5, a6, a7, a8, hv⟩ :=
    @interiorValue_some s1 i j mQ mF mG hi1 (by omega) hj1 (by omega)
  have hc : (1 ≤ i ∧ i < s1.stride_ - 1) ∧ 1 ≤ j ∧ j < s1.N_y - 1 := by omega
  have hcell' := hcell i j (by omega)
  rw [if_pos hc, hv, smul_sdiv_two] at hcell'
  rw [e1, e3] at a1 a2 a3 a4
  rw [e1, e4] at a5 a6
  rw [e1, e5] at a7 a8
  rw [e1, e6, e7] at hcell'
  exact ⟨qE, qS, qW, qN, fE, fW, gN, gS, a1, a2, a3, a4, a5, a6, a7, a8, hcell'⟩

/-- Witness of C15: the first pass on `rest33`. -/
theorem interior_update_formula_witness :
    LaxFriedrichsStep (7 / 5) sqrtUnit (rest33, rest33.Q_)
      = some ({ rest33 with dt_ := 1 / 4, time_ := 1 / 4 }, rest33.Q_) ∧
    ∃ s1 Qt, forLoop 0 rest33.xy_.length (cfl (7 / 5) sqrtUnit) rest33 = some s1 ∧
      interiorUpdate s1 rest33.Q_ = some Qt ∧ rest33.Q_ = Qt :=
  ⟨step_rest33,
    (interior_update_formula (7 / 5) sqrtUnit (rest33, rest33.Q_) _ (by decide!) (by decide!)
      (by decide!) (by decide!) step_rest33).imp
      (fun _ h => h.imp (fun _ g => ⟨g.1, g.2.1, g.2.2.1⟩))⟩

/-! ### The VTK export -/

theorem range'_snoc {lo k : ℕ} (h : lo ≤ k) :
    List.range' lo (k + 1 - lo) = List.range' lo (k - lo) ++ [k] := by
  have e : k + 1 - lo = (k - lo) + 1 := by omega
  rw [e, List.range'_concat]
  congr 2
  omega

/-- An emitting loop whose passes all return appends their items in order. -/
theorem emitLoop_spec {lo hi : ℕ} {item : ℕ → Option (List Tok)} (v : ℕ → List Tok)
    (out : List Tok) (h : ∀ k, lo ≤ k → k < hi → item k = some (v k)) :
    emitLoop lo hi item out = some (out ++ (List.range' lo (hi - lo)).flatMap v) := by
  unfold emitLoop
  by_cases hle : lo ≤ hi
  · obtain ⟨t, ht, hI⟩ := forLoop_total
      (fun k t => t = out ++ (List.range' lo (k - lo)).flatMap v)
      (fun out k => do
        let ts ← item k
        pure (out ++ ts)) hle out (by simp) (by
        rintro k t h1 h2 rfl
        refine ⟨_, by simp only [h k h1 h2]; rfl, ?_⟩
        show _ = out ++ (List.range' _ (k + 1 - _)).flatMap _
        rw [range'_snoc h1, List.flatMap_append, List.flatMap_singleton, List.append_assoc])
    rw [ht, hI]
  · rw [forLoop_of_le (by omega), Nat.sub_eq_zero_of_le (by omega)]
    simp

/-- Emitting nested loops whose passes all return append their items row by row. -/
theorem emitGrid_spec {jlo jhi ilo ihi : ℕ} {item : ℕ → ℕ → Option (List Tok)}
    (v : ℕ → ℕ → List Tok) (out : List Tok)
    (h : ∀ i j, ilo ≤ i → i < ihi → jlo ≤ j → j < jhi → item i j = some (v i j)) :
    emitGrid jlo jhi ilo ihi item out
      = some (out ++ (List.range' jlo (jhi - jlo)).flatMap (fun j =>
          (List.range' ilo (ihi - ilo)).flatMap (fun i => v i j))) := by
  unfold emitGrid
  by_cases hle : jlo ≤ jhi
  · obtain ⟨t, ht, hI⟩ := forLoop_total
      (fun k t => t = out ++ (List.range' jlo (k - jlo)).flatMap (fun j =>
          (List.range' ilo (ihi - ilo)).flatMap (fun i => v i j)))
        (fun out j => emitLoop ilo ihi (fun i => item i j) out) hle out (by simp) (by
        rintro k t h1 h2 rfl
        refine ⟨_, emitLoop_spec (fun i => v i k) _ (fun i hi1 hi2 => h i k hi1 hi2 h1 h2), ?_⟩
        show _ = out ++ (List.range' _ (k + 1 - _)).flatMap _
        rw [range'_snoc h1, List.flatMap_append, List.flatMap_singleton, List.append_assoc])
    rw [ht, hI]
  · rw [forLoop_of_le (by omega), Nat.sub_eq_zero_of_le (by omega)]
    simp

theorem length_gridCells (s : Solver) (jlo jhi ilo ihi : ℕ) :
    (gridCells s jlo jhi ilo ihi).length = (ihi - ilo) * (jhi - jlo) := by
  unfold gridCells
  rw [List.length_flatMap]
  have : (List.length ∘ fun j => List.map (fun i =>
      (s.solution_[ij2k s.stride_ i j]?).getD ⟨0, 0, 0, 0⟩) (List.range' ilo (ihi - ilo)))
      = fun _ => ihi - ilo := by
    funext j
    simp
  rw [this, List.map_const', List.sum_const_nat, List.length_range', Nat.mul_comm]

/-- Nested loops that insert `g` of the state of every point they visit, over
points inside `solution_`, append `g` of the cells of the block. -/
theorem emitGrid_cells (s : Solver) {jlo jhi ilo ihi : ℕ} {item : ℕ → ℕ → Option (List Tok)}
    (g : RUVP → List Tok) (out : List Tok)
    (hrange : ∀ i j, i < ihi → j < jhi → ij2k s.stride_ i j < s.solution_.length)
    (hitem : ∀ i j var, s.solution_[ij2k s.stride_ i j]? = some var → item i j = some (g var)) :
    emitGrid jlo jhi ilo ihi item out = some (out ++ (gridCells s jlo jhi ilo ihi).flatMap g) := by
  rw [emitGrid_spec (fun i j => g ((s.solution_[ij2k s.stride_ i j]?).getD ⟨0, 0, 0, 0⟩)) out]
  · unfold gridCells
    rw [List.flatMap_assoc]
    simp only [List.flatMap_map]
  · intro i j _ hi _ hj
    obtain ⟨var, hvar⟩ := getElem?_some_of_lt (hrange i j hi hj)
    rw [hitem i j var hvar, hvar]
    rfl

theorem densityItem_eq {s : Solver} (i j : ℕ) (var : RUVP)
    (h : s.solution_[ij2k s.stride_ i j]? = some var) :
    densityItem s i j = some [Tok.dbl var.r, Tok.endl] := by
  simp [densityItem, load, h]

theorem pressureItem_eq {s : Solver} (i j : ℕ) (var : RUVP)
    (h : s.solution_[ij2k s.stride_ i j]? = some var) :
    pressureItem s i j = some [Tok.dbl var.p, Tok.endl] := by
  simp [pressureItem, load, h]

theorem velocityItem_eq {s : Solver} (i j : ℕ) (var : RUVP)
    (h : s.solution_[ij2k s.stride_ i j]? = some var) :
    velocityItem s i j
      = some [Tok.fixed, Tok.dbl var.u, Tok.str " ", Tok.dbl var.v, Tok.str " 0", Tok.endl] := by
  simp [velocityItem, load, h]

theorem xCoordinates_spec (s : Solver) (lo : ℕ) (out : List Tok)
    (h : s.stride_ ≤ s.xy_.length) :
    emitLoop lo s.stride_ (fun i =>
        (load s.xy_ i).bind fun xy => some [Tok.dbl (xy.1 - s.x_step_ / 2), Tok.str " "]) out
      = some (out ++ (List.range' lo (s.stride_ - lo)).flatMap (fun i =>
          [Tok.dbl (((s.xy_[i]?).getD (0, 0)).1 - s.x_step_ / 2), Tok.str " "])) := by
  apply emitLoop_spec
  intro k _ hk
  obtain ⟨xy, hxy⟩ := getElem?_some_of_lt (by omega : k < s.xy_.length)
  simp [load, hxy]

theorem yCoordinates_spec (s : Solver) (lo : ℕ) (out : List Tok)
    (h : s.stride_ * s.N_y ≤ s.xy_.length) (hN : 0 < s.stride_) :
    emitLoop lo s.N_y (fun i =>
        (load s.xy_ (ij2k s.stride_ 0 i)).bind fun xy =>
          some [Tok.dbl (xy.2 - s.y_step_ / 2), Tok.str " "]) out
      = some (out ++ (List.range' lo (s.N_y - lo)).flatMap (fun i =>
          [Tok.dbl (((s.xy_[ij2k s.stride_ 0 i]?).getD (0, 0)).2 - s.y_step_ / 2),
            Tok.str " "])) := by
  apply emitLoop_spec
  intro k _ hk
  obtain ⟨xy, hxy⟩ := getElem?_some_of_lt (lt_of_lt_of_le (ij2k_lt hN hk) h)
  simp [load, hxy]

/-- C13. Export cell counts: on a grid with `N_x, N_y ≥ 2` whose mesh and
solution cover it, `VisualVTK` returns, declares `CELL_DATA (N_x-2)*(N_y-2)` once,
and then inserts a density block, a pressure block and a velocity block each with
one entry for each of `(N_x-2)*(N_y-2)` cells; `VisualVTK_FULL` returns, declares
`CELL_DATA N_x*N_y` and inserts blocks of `N_x*N_y` entries each. -/
theorem export_cell_counts (s : Solver) (hN : 2 ≤ s.stride_) (hM : 2 ≤ s.N_y)
    (hxy : s.stride_ * s.N_y ≤ s.xy_.length) (hsol : s.stride_ * s.N_y ≤ s.solution_.length) :
    (∃ (head : List Tok) (cells : List RUVP), Tok.str "CELL_DATA " ∉ head ∧
      cells.length = (s.stride_ - 2) * (s.N_y - 2) ∧
      VisualVTK s = some (head
        ++ [Tok.str "CELL_DATA ", Tok.nat ((s.stride_ - 2) * (s.N_y - 2)), Tok.endl]
        ++ [Tok.str "SCALARS density double 1", Tok.endl]
        ++ [Tok.str "LOOKUP_TABLE default", Tok.endl]
        ++ cells.flatMap (fun c => [Tok.dbl c.r, Tok.endl])
        ++ [Tok.str "SCALARS pressure double 1", Tok.endl]
        ++ [Tok.str "LOOKUP_TABLE default", Tok.endl]
        ++ cells.flatMap (fun c => [Tok.dbl c.p, Tok.endl])
        ++ [Tok.str "VECTORS velocity double", Tok.endl]
        ++ cells.flatMap (fun c =>
            [Tok.fixed, Tok.dbl c.u, Tok.str " ", Tok.dbl c.v, Tok.str " 0", Tok.endl]))) ∧
    (∃ (head : List Tok) (cells : List RUVP), Tok.str "CELL_DATA " ∉ head ∧
      cells.length = s.stride_ * s.N_y ∧
      VisualVTK_FULL s = some (head
        ++ [Tok.str "CELL_DATA ", Tok.nat (s.stride_ * s.N_y), Tok.endl]
        ++ [Tok.str "SCALARS density double 1", Tok.endl]
        ++ [Tok.str "LOOKUP_TABLE default", Tok.endl]
        ++ cells.flatMap (fun c => [Tok.dbl c.r, Tok.endl])
        ++ [Tok.str "SCALARS pressure double 1", Tok.endl]
        ++ [Tok.str "LOOKUP_TABLE default", Tok.endl]
        ++ cells.flatMap (fun c => [Tok.dbl c.p, Tok.endl])
        ++ [Tok.str "VECTORS velocity double", Tok.endl]
        ++ cells.flatMap (fun c =>
            [Tok.fixed, Tok.dbl c.u, Tok.str " ", Tok.dbl c.v, Tok.str " 0", Tok.endl]))) := by
  have hpos : 0 < s.stride_ := by omega
  have hx : s.stride_ ≤ s.xy_.length := by
    have : s.stride_ * 1 ≤ s.stride_ * s.N_y := Nat.mul_le_mul_left _ (by omega)
    omega
  have hin : ∀ i j, i < s.stride_ - 1 → j < s.N_y - 1 →
      ij2k s.stride_ i j < s.solution_.length :=
    fun i j hi hj => lt_of_lt_of_le (ij2k_lt (by omega) (by omega)) hsol
  have hfull : ∀ i j, i < s.stride_ → j < s.N_y → ij2k s.stride_ i j < s.solution_.length :=
    fun i j hi hj => lt_of_lt_of_le (ij2k_lt hi hj) hsol
  constructor
  · refine ⟨vtkHead s, gridCells s 1 (s.N_y - 1) 1 (s.stride_ - 1), ?_, ?_, ?_⟩
    · simp [vtkHead]
    · rw [length_gridCells]
      rfl
    · simp only [VisualVTK, Option.bind_eq_bind, Option.pure_def, xCoordinates_spec s 1 _ hx,
        yCoordinates_spec s 1 _ hxy hpos, Option.some_bind,
        emitGrid_cells s _ _ hin densityItem_eq, emitGrid_cells s _ _ hin pressureItem_eq,
        emitGrid_cells s _ _ hin velocityItem_eq]
      rfl
  · obtain ⟨a, ha⟩ := getElem?_some_of_lt (by omega : s.stride_ - 1 < s.xy_.length)
    obtain ⟨b, hb⟩ := getElem?_some_of_lt
      (lt_of_lt_of_le (ij2k_lt hpos (by omega : s.N_y - 1 < s.N_y)) hxy)
    have ha' : load s.xy_ (s.stride_ - 1) = some a := ha
    have hb' : load s.xy_ (ij2k s.stride_ 0 (s.N_y - 1)) = some b := hb
    refine ⟨vtkFullHead s, gridCells s 0 s.N_y 0 s.stride_, ?_, ?_, ?_⟩
    · simp [vtkFullHead]
    · rw [length_gridCells]
      rfl
    · simp only [VisualVTK_FULL, Option.bind_eq_bind, Option.pure_def, xCoordinates_spec s 0 _ hx,
        yCoordinates_spec s 0 _ hxy hpos, Option.some_bind, ha', hb',
        emitGrid_cells s _ _ hfull densityItem_eq, emitGrid_cells s _ _ hfull pressureItem_eq,
        emitGrid_cells s _ _ hfull velocityItem_eq]
      simp only [vtkFullHead, ha, hb, Option.getD_some]

/-- Witness of C13: for `N_x = 5`, `N_y = 4` the interior export declares 6 cells
and the full export 20. -/
theorem export_cell_counts_witness :
    (∃ (head : List Tok) (cells : List RUVP), cells.length = 6 ∧
      VisualVTK grid54 = some (head
        ++ [Tok.str "CELL_DATA ", Tok.nat 6, Tok.endl]
        ++ [Tok.str "SCALARS density double 1", Tok.endl]
        ++ [Tok.str "LOOKUP_TABLE default", Tok.endl]
        ++ cells.flatMap (fun c => [Tok.dbl c.r, Tok.endl])
        ++ [Tok.str "SCALARS pressure double 1", Tok.endl]
        ++ [Tok.str "LOOKUP_TABLE default", Tok.endl]
        ++ cells.flatMap (fun c => [Tok.dbl c.p, Tok.endl])
        ++ [Tok.str "VECTORS velocity double", Tok.endl]
        ++ cells.flatMap (fun c =>
            [Tok.fixed, Tok.dbl c.u, Tok.str " ", Tok.dbl c.v, Tok.str " 0", Tok.endl]))) ∧
    (∃ (head : List Tok) (cells : List RUVP), cells.length = 20 ∧
      VisualVTK_FULL grid54 = some (head
        ++ [Tok.str "CELL_DATA ", Tok.nat 20, Tok.endl]
        ++ [Tok.str "SCALARS density double 1", Tok.endl]
        ++ [Tok.str "LOOKUP_TABLE default", Tok.endl]
        ++ cells.flatMap (fun c => [Tok.dbl c.r, Tok.endl])
        ++ [Tok.str "SCALARS pressure double 1", Tok.endl]
        ++ [Tok.str "LOOKUP_TABLE default", Tok.endl]
        ++ cells.flatMap (fun c => [Tok.dbl c.p, Tok.endl])
        ++ [Tok.str "VECTORS velocity double", Tok.endl]
        ++ cells.flatMap (fun c =>
            [Tok.fixed, Tok.dbl c.u, Tok.str " ", Tok.dbl c.v, Tok.str " 0", Tok.endl]))) :=
  ⟨(export_cell_counts grid54 (by decide) (by decide) (by decide) (by decide)).1.imp
      (fun _ h => h.imp (fun _ g => g.2)),
    (export_cell_counts grid54 (by decide) (by decide) (by decide) (by decide)).2.imp
      (fun _ h => h.imp (fun _ g => g.2))⟩

/-! ### The steady state at rest -/

end HPC
